import Mathlib

set_option maxHeartbeats 1000000

namespace ShellyGitOps

/-!
A shallow embedding of the reconciliation / sync engine of the
shelly-git-ops repository: the manifest (device registry), the template
engine (`internal/gitops/values.go`), the KVS merge rule of
`pullDeviceConfig`, and the push reconciliation of `pushDeviceConfig`
(`internal/gitops/sync.go`), together with a per-device model of pull
orchestration (`PullFromDevices`).

Go `map[string]interface{}` values are modelled as association lists with
JSON-like values; `interface{}` is modelled by the inductive `JValue`.
Remote RPC calls that mutate device state are recorded in a trace and
simultaneously interpreted against an explicit remote-state record; the
model follows the success path of every file-system and remote call
(failure cases that the claims mention are modelled via `Except`-valued
inputs where the source checks them).
-/

/-- JSON-like value, modelling Go `interface{}` as produced by
`encoding/json` unmarshalling (strings, numbers, booleans, null, objects). -/
inductive JValue : Type where
  | str (s : String)
  | num (n : Int)
  | boolean (b : Bool)
  | null
  | obj (fields : List (String × JValue))

/-- First-match lookup in an association list (Go map read `m[k]`). -/
def lookupA {α β : Type} [DecidableEq α] : List (α × β) → α → Option β
  | [], _ => none
  | (k', v) :: rest, k => if k' = k then some v else lookupA rest k

/-- Key membership test for an association list. -/
def containsKeyA {α β : Type} [DecidableEq α] (m : List (α × β)) (k : α) : Bool :=
  m.any (fun p => p.1 = k)

/-- Replace the entry `p` by `(k, v)` when its key is `k`. -/
def updEntry {α β : Type} [DecidableEq α] (k : α) (v : β) (p : α × β) : α × β :=
  if p.1 = k then (k, v) else p

/-- Go map assignment `m[k] = v`: update every entry with key `k` in place,
or append a new entry when the key is absent. -/
def setA {α β : Type} [DecidableEq α] (m : List (α × β)) (k : α) (v : β) : List (α × β) :=
  if containsKeyA m k then m.map (updEntry k v)
  else m ++ [(k, v)]

/-- Go map deletion `delete(m, k)`. -/
def removeA {α β : Type} [DecidableEq α] (m : List (α × β)) (k : α) : List (α × β) :=
  m.filter (fun p => ¬ p.1 = k)

/-- The keys of an association list, in storage order. -/
def keysA {α β : Type} (m : List (α × β)) : List α :=
  m.map Prod.fst

/-- An association list with no duplicate keys (the invariant of every
Go map once enumerated). -/
def NodupKeysA {α β : Type} (m : List (α × β)) : Prop :=
  (keysA m).Nodup

instance {α β : Type} [DecidableEq α] (m : List (α × β)) : Decidable (NodupKeysA m) :=
  inferInstanceAs (Decidable ((keysA m).Nodup))

theorem lookupA_isSome_iff_containsKeyA {α β : Type} [DecidableEq α]
    (m : List (α × β)) (k : α) :
    (lookupA m k).isSome = containsKeyA m k := by
  induction m with
  | nil => rfl
  | cons p rest ih =>
      rcases p with ⟨k', v⟩
      by_cases h : k' = k
      · simp [lookupA, containsKeyA, h]
      · simp only [lookupA, if_neg h, containsKeyA, List.any_cons,
          decide_eq_true_eq, h, decide_False, Bool.false_or]
        exact ih

theorem updEntry_pos {α β : Type} [DecidableEq α]
    (k : α) (v : β) (p : α × β) (h : p.1 = k) : updEntry k v p = (k, v) := by
  unfold updEntry
  rw [if_pos h]

theorem updEntry_neg {α β : Type} [DecidableEq α]
    (k : α) (v : β) (p : α × β) (h : ¬ p.1 = k) : updEntry k v p = p := by
  unfold updEntry
  rw [if_neg h]

theorem lookupA_cons {α β : Type} [DecidableEq α]
    (p : α × β) (rest : List (α × β)) (k : α) :
    lookupA (p :: rest) k = if p.1 = k then some p.2 else lookupA rest k := by
  rcases p with ⟨k', v⟩
  rfl

theorem lookupA_map_updEntry_self {α β : Type} [DecidableEq α]
    (m : List (α × β)) (k : α) (v : β) (h : containsKeyA m k = true) :
    lookupA (m.map (updEntry k v)) k = some v := by
  induction m with
  | nil => simp [containsKeyA] at h
  | cons p rest ih =>
      rcases p with ⟨k', w⟩
      by_cases hk : k' = k
      · rw [List.map_cons, updEntry_pos k v (k', w) hk, lookupA_cons]
        rw [if_pos rfl]
      · have h' : containsKeyA rest k = true := by
          simpa [containsKeyA, hk] using h
        rw [List.map_cons, updEntry_neg k v (k', w) hk, lookupA_cons]
        rw [if_neg hk]
        exact ih h'

theorem lookupA_map_updEntry_ne {α β : Type} [DecidableEq α]
    (m : List (α × β)) (k k' : α) (v : β) (h : k ≠ k') :
    lookupA (m.map (updEntry k v)) k' = lookupA m k' := by
  induction m with
  | nil => rfl
  | cons p rest ih =>
      rcases p with ⟨k₀, w⟩
      by_cases hk : k₀ = k
      · rw [List.map_cons, updEntry_pos k v (k₀, w) hk, lookupA_cons, lookupA_cons]
        have hkk' : ¬ ((k, v) : α × β).1 = k' := h
        rw [if_neg hkk', if_neg (show ¬ ((k₀, w) : α × β).1 = k' from hk ▸ h)]
        exact ih
      · rw [List.map_cons, updEntry_neg k v (k₀, w) hk, lookupA_cons, lookupA_cons]
        by_cases hk' : k₀ = k'
        · rw [if_pos hk', if_pos hk']
        · rw [if_neg hk', if_neg hk']
          exact ih

theorem lookupA_append_self_of_not_contains {α β : Type} [DecidableEq α]
    (m : List (α × β)) (k : α) (v : β) (h : containsKeyA m k = false) :
    lookupA (m ++ [(k, v)]) k = some v := by
  induction m with
  | nil => simp [lookupA]
  | cons p rest ih =>
      rcases p with ⟨k₀, w⟩
      have hk : ¬ k₀ = k := by
        intro hkk
        simp [containsKeyA, hkk] at h
      have h' : containsKeyA rest k = false := by
        simpa [containsKeyA, hk] using h
      simp [lookupA, hk, ih h']

theorem lookupA_append_single_ne {α β : Type} [DecidableEq α]
    (m : List (α × β)) (k k' : α) (v : β) (h : k ≠ k') :
    lookupA (m ++ [(k, v)]) k' = lookupA m k' := by
  induction m with
  | nil => simp [lookupA, h]
  | cons p rest ih =>
      rcases p with ⟨k₀, w⟩
      by_cases hk' : k₀ = k'
      · simp [lookupA, hk']
      · simp [lookupA, hk', ih]

theorem lookupA_setA_self {α β : Type} [DecidableEq α]
    (m : List (α × β)) (k : α) (v : β) :
    lookupA (setA m k v) k = some v := by
  unfold setA
  by_cases hc : containsKeyA m k = true
  · simp only [hc, if_true]
    exact lookupA_map_updEntry_self m k v hc
  · simp only [hc, if_false]
    exact lookupA_append_self_of_not_contains m k v (by simpa using hc)

theorem lookupA_setA_ne {α β : Type} [DecidableEq α]
    (m : List (α × β)) (k k' : α) (v : β) (h : k ≠ k') :
    lookupA (setA m k v) k' = lookupA m k' := by
  unfold setA
  by_cases hc : containsKeyA m k = true
  · simp only [hc, if_true]
    exact lookupA_map_updEntry_ne m k k' v h
  · simp only [hc, if_false]
    exact lookupA_append_single_ne m k k' v h

theorem keysA_map_updEntry {α β : Type} [DecidableEq α]
    (m : List (α × β)) (k : α) (v : β) :
    keysA (m.map (updEntry k v)) = keysA m := by
  unfold keysA
  rw [List.map_map]
  apply List.map_congr_left
  intro p _
  by_cases hk : p.1 = k
  · simp [Function.comp, updEntry, hk]
  · simp [Function.comp, updEntry, hk]

theorem keysA_setA_of_mem {α β : Type} [DecidableEq α]
    (m : List (α × β)) (k : α) (v : β) (h : containsKeyA m k = true) :
    keysA (setA m k v) = keysA m := by
  unfold setA
  simp only [h, if_true]
  exact keysA_map_updEntry m k v

theorem keysA_setA_of_not_mem {α β : Type} [DecidableEq α]
    (m : List (α × β)) (k : α) (v : β) (h : containsKeyA m k = false) :
    keysA (setA m k v) = keysA m ++ [k] := by
  unfold setA
  simp [h, keysA]

theorem containsKeyA_iff_mem_keysA {α β : Type} [DecidableEq α]
    (m : List (α × β)) (k : α) :
    containsKeyA m k = true ↔ k ∈ keysA m := by
  constructor
  · intro h
    simp only [containsKeyA, List.any_eq_true, decide_eq_true_eq] at h
    obtain ⟨p, hp, hk⟩ := h
    exact hk ▸ List.mem_map.mpr ⟨p, hp, rfl⟩
  · intro h
    obtain ⟨p, hp, hk⟩ := List.mem_map.mp h
    simp only [containsKeyA, List.any_eq_true, decide_eq_true_eq]
    exact ⟨p, hp, hk⟩

theorem nodupKeysA_setA {α β : Type} [DecidableEq α]
    (m : List (α × β)) (k : α) (v : β) (h : NodupKeysA m) :
    NodupKeysA (setA m k v) := by
  unfold NodupKeysA
  by_cases hc : containsKeyA m k = true
  · rw [keysA_setA_of_mem m k v hc]
    exact h
  · rw [keysA_setA_of_not_mem m k v (by simpa using hc)]
    rw [List.nodup_append]
    refine ⟨h, List.nodup_singleton k, ?_⟩
    intro a ha hb
    simp only [List.mem_singleton] at hb
    subst hb
    have hfalse : containsKeyA m a = false := by
      simpa using hc
    have htrue : containsKeyA m a = true := (containsKeyA_iff_mem_keysA m a).mpr ha
    rw [hfalse] at htrue
    exact Bool.false_ne_true htrue

theorem lookupA_of_mem_nodup {α β : Type} [DecidableEq α]
    (m : List (α × β)) (k : α) (v : β)
    (hmem : (k, v) ∈ m) (hnd : NodupKeysA m) :
    lookupA m k = some v := by
  induction m with
  | nil => cases hmem
  | cons p rest ih =>
      rcases p with ⟨k₀, w⟩
      rcases List.mem_cons.mp hmem with heq | htail
      · cases heq
        simp [lookupA]
      · have hk : k₀ ≠ k := by
          intro hk
          subst hk
          unfold NodupKeysA keysA at hnd
          simp only [List.map_cons, List.nodup_cons] at hnd
          exact hnd.1 (List.mem_map.mpr ⟨(k₀, v), htail, rfl⟩)
        have hnd' : NodupKeysA rest := by
          unfold NodupKeysA keysA at hnd ⊢
          simp only [List.map_cons, List.nodup_cons] at hnd
          exact hnd.2
        simp [lookupA, hk, ih htail hnd']

theorem setA_eq_of_lookup {α β : Type} [DecidableEq α]
    (m : List (α × β)) (k : α) (v : β)
    (hnd : NodupKeysA m) (h : lookupA m k = some v) :
    setA m k v = m := by
  have hc : containsKeyA m k = true := by
    rw [← lookupA_isSome_iff_containsKeyA, h]
    rfl
  unfold setA
  simp only [hc, if_true]
  have hmap : m.map (updEntry k v) = m.map id := by
    apply List.map_congr_left
    intro p hp
    by_cases hpk : p.1 = k
    · have hpm : (k, p.2) ∈ m := by
        have hp' : (p.1, p.2) ∈ m := by
          simpa using hp
        rw [hpk] at hp'
        exact hp'
      have hl : lookupA m k = some p.2 := lookupA_of_mem_nodup m k p.2 hpm hnd
      rw [h] at hl
      have hv : v = p.2 := by
        injection hl
      rw [updEntry_pos k v p hpk, id_eq, hv, ← hpk]
    · rw [updEntry_neg k v p hpk, id_eq]
  rw [hmap, List.map_id]

theorem lookupA_removeA_self {α β : Type} [DecidableEq α]
    (m : List (α × β)) (k : α) :
    lookupA (removeA m k) k = none := by
  induction m with
  | nil => rfl
  | cons p rest ih =>
      rcases p with ⟨k₀, w⟩
      by_cases hk : k₀ = k
      · simpa [removeA, List.filter_cons, hk] using ih
      · simpa [removeA, List.filter_cons, lookupA, hk] using ih

theorem lookupA_removeA_ne {α β : Type} [DecidableEq α]
    (m : List (α × β)) (k k' : α) (h : k ≠ k') :
    lookupA (removeA m k) k' = lookupA m k' := by
  induction m with
  | nil => rfl
  | cons p rest ih =>
      rcases p with ⟨k₀, w⟩
      by_cases hk : k₀ = k
      · have hne : ¬ (((k₀, w) : α × β).1 = k') := by
          simpa [hk] using h
        rw [lookupA_cons, if_neg hne]
        have hstep : removeA ((k₀, w) :: rest) k = removeA rest k := by
          simp [removeA, List.filter_cons, hk]
        rw [hstep]
        exact ih
      · have hstep : removeA ((k₀, w) :: rest) k = (k₀, w) :: removeA rest k := by
          simp [removeA, List.filter_cons, hk]
        rw [hstep, lookupA_cons, lookupA_cons]
        by_cases hk' : k₀ = k'
        · rw [if_pos hk', if_pos hk']
        · rw [if_neg hk', if_neg hk']
          exact ih

theorem keysA_removeA {α β : Type} [DecidableEq α]
    (m : List (α × β)) (k : α) :
    keysA (removeA m k) = (keysA m).filter (fun k' => ¬ k' = k) := by
  induction m with
  | nil => rfl
  | cons p rest ih =>
      rcases p with ⟨k₀, w⟩
      by_cases hk : k₀ = k
      · simpa [removeA, keysA, List.filter_cons, hk] using ih
      · simpa [removeA, keysA, List.filter_cons, hk] using ih

theorem nodupKeysA_removeA {α β : Type} [DecidableEq α]
    (m : List (α × β)) (k : α) (h : NodupKeysA m) :
    NodupKeysA (removeA m k) := by
  unfold NodupKeysA
  rw [keysA_removeA]
  exact List.Nodup.filter _ h

/-- Folding a function that fixes the accumulator over a list leaves the
accumulator unchanged. -/
theorem foldl_fixed {α β : Type} (f : α → β → α) (s : α) (l : List β)
    (h : ∀ x ∈ l, f s x = s) : l.foldl f s = s := by
  induction l with
  | nil => rfl
  | cons x xs ih =>
      rw [List.foldl_cons, h x (List.mem_cons_self x xs)]
      exact ih (fun y hy => h y (List.mem_cons_of_mem x hy))

theorem lookupA_eq_none_of_not_mem_keys {α β : Type} [DecidableEq α]
    (m : List (α × β)) (k : α) (h : k ∉ keysA m) :
    lookupA m k = none := by
  have hc : containsKeyA m k = false := by
    cases hcc : containsKeyA m k with
    | false => rfl
    | true => exact absurd ((containsKeyA_iff_mem_keysA m k).mp hcc) h
  have := lookupA_isSome_iff_containsKeyA m k
  rw [hc] at this
  cases hl : lookupA m k with
  | none => rfl
  | some v =>
      rw [hl] at this
      simp at this

/-! ## Template detection (`IsTemplated`, `internal/gitops/values.go`)

The Go source tests a value with the regular expression whose pattern is
two literal opening braces, a lazy dot-star, and two literal closing
braces; Go's RE2 dot does not match a newline.  A string matches exactly
when it contains two opening braces followed, with no intervening
newline, by two closing braces. -/

/-- Scan for a closing double brace with no intervening newline. -/
def closeBeforeNewline : List Char → Bool
  | '}' :: '}' :: _ => true
  | '\n' :: _ => false
  | _ :: rest => closeBeforeNewline rest
  | [] => false

/-- Whether the string starts with an opening double brace followed by a
matching close before the next newline. -/
def hasTemplateAt : List Char → Bool
  | '{' :: '{' :: rest => closeBeforeNewline rest
  | _ => false

/-- Whether some position starts a match of the template pattern. -/
def hasTemplateFrom : List Char → Bool
  | [] => false
  | c :: rest => hasTemplateAt (c :: rest) || hasTemplateFrom rest

/-- `IsTemplated` checks if a string contains Go template syntax
(the delimiter pattern, detected without evaluating it). -/
def IsTemplated (value : String) : Bool :=
  hasTemplateFrom value.data

/-! ## Template engine

Modelled from the spec: the Go source delegates rendering to the standard
`text/template` package (not part of this repository) configured with
`Option("missingkey=error")`.  Following §4.1 of the spec, the model
covers templates made of literal text and field-chain actions
(`.key`, `.a.b`): parsing fails on malformed actions, and execution fails
when a referenced key is absent from the context — a hard error, never a
silent empty substitution.  Printing of nested objects is abstracted to a
fixed placeholder string. -/

/-- A parsed template token: a literal character or a field-chain action. -/
inductive TmplToken : Type where
  | lit (c : Char)
  | action (chain : List String)

/-- Characters allowed in a field name. -/
def isIdentChar (c : Char) : Bool :=
  c.isAlphanum || c = '_'

/-- Parse one field name; fails on an empty name. -/
def parseIdent (l : List Char) : Option (String × List Char) :=
  let ident := l.takeWhile isIdentChar
  if ident.isEmpty then none
  else some (String.mk ident, l.drop ident.length)

/-- Skip blanks inside an action. -/
def skipSpaces (l : List Char) : List Char :=
  l.dropWhile (fun c => c = ' ')

/-- Parse a nonempty dot-separated field chain. -/
def parseFields : Nat → List Char → Except String (List String × List Char)
  | 0, _ => .error "field chain too long"
  | fuel + 1, l =>
      match l with
      | '.' :: rest =>
          match parseIdent rest with
          | none => .error "expected field name after dot"
          | some (name, rest') =>
              match rest' with
              | '.' :: _ =>
                  match parseFields fuel rest' with
                  | .error e => .error e
                  | .ok (names, rest'') => .ok (name :: names, rest'')
              | _ => .ok ([name], rest')
      | _ => .error "expected dot at start of action"

/-- Parse the inside of an action after the opening delimiter, up to and
including the closing delimiter. -/
def parseAction (fuel : Nat) (l : List Char) : Except String (List String × List Char) :=
  match parseFields fuel (skipSpaces l) with
  | .error e => .error e
  | .ok (chain, l2) =>
      match skipSpaces l2 with
      | '}' :: '}' :: rest => .ok (chain, rest)
      | _ => .error "unterminated or malformed action"

/-- Fuel-indexed tokenizer for template strings. -/
def parseTokensF : Nat → List Char → Except String (List TmplToken)
  | _, [] => .ok []
  | 0, _ :: _ => .error "template too long"
  | fuel + 1, '{' :: '{' :: rest =>
      match parseAction (fuel + 1) rest with
      | .error e => .error e
      | .ok (chain, rest') =>
          match parseTokensF fuel rest' with
          | .error e => .error e
          | .ok toks => .ok (.action chain :: toks)
  | fuel + 1, c :: rest =>
      match parseTokensF fuel rest with
      | .error e => .error e
      | .ok toks => .ok (.lit c :: toks)

/-- Tokenize a template string (the fuel always suffices: every step of
the tokenizer consumes at least one character). -/
def parseTemplate (tmplStr : String) : Except String (List TmplToken) :=
  parseTokensF (tmplStr.data.length + 1) tmplStr.data

/-- Resolve the tail of a field chain against a value. -/
def resolveFields : JValue → List String → Except String JValue
  | v, [] => .ok v
  | .obj fields, n :: rest =>
      match lookupA fields n with
      | none => .error ("map has no entry for key " ++ n)
      | some v => resolveFields v rest
  | _, _ :: _ => .error "cannot access field of non-object value"

/-- Resolve a field chain against the root context; an absent key is a
hard error (`missingkey=error`). -/
def resolveChain (context : List (String × JValue)) : List String → Except String JValue
  | [] => .error "empty field chain"
  | n :: rest =>
      match lookupA context n with
      | none => .error ("map has no entry for key " ++ n)
      | some v => resolveFields v rest

/-- Print a resolved value into the output (object printing abstracted). -/
def valueToString : JValue → String
  | .str s => s
  | .num n => toString n
  | .boolean b => if b then "true" else "false"
  | .null => "<no value>"
  | .obj _ => "map"

/-- Execute a token list against a context. -/
def execTokens (context : List (String × JValue)) : List TmplToken → Except String String
  | [] => .ok ""
  | .lit c :: rest =>
      match execTokens context rest with
      | .error e => .error e
      | .ok s => .ok (String.singleton c ++ s)
  | .action chain :: rest =>
      match resolveChain context chain with
      | .error e => .error e
      | .ok v =>
          match execTokens context rest with
          | .error e => .error e
          | .ok s => .ok (valueToString v ++ s)

/-- `RenderTemplate` renders a template string with the given context;
parse errors and execution errors (including missing keys) are wrapped
and returned, never swallowed. -/
def RenderTemplate (tmplStr : String) (context : List (String × JValue)) :
    Except String String :=
  match parseTemplate tmplStr with
  | .error e => .error ("failed to parse template: " ++ e)
  | .ok toks =>
      match execTokens context toks with
      | .error e =>
          .error ("failed to execute template '" ++ tmplStr ++ "': " ++ e)
      | .ok out => .ok out

/-- Device information available in templates (`DeviceContext`). -/
structure DeviceContext : Type where
  deviceID : String
  name : String
  model : String
  ipAddress : String
  macAddress : String
  folder : String
deriving DecidableEq, Repr

/-- The `device` / `devices` entry built for one device. -/
def deviceContextObj (d : DeviceContext) : JValue :=
  .obj [("device_id", .str d.deviceID), ("name", .str d.name),
        ("model", .str d.model), ("ip_address", .str d.ipAddress),
        ("mac_address", .str d.macAddress), ("folder", .str d.folder)]

/-- `CreateTemplateContext`: user values at the root, plus the `device`
and `devices` namespaces. -/
def CreateTemplateContext (values : List (String × JValue)) (currentDevice : DeviceContext)
    (allDevices : List (String × DeviceContext)) : List (String × JValue) :=
  setA (setA values "device" (deviceContextObj currentDevice))
    "devices" (.obj (allDevices.map (fun p => (p.1, deviceContextObj p.2))))

/-- `RenderKVSValue` renders a KVS value if it is a templated string,
otherwise returns it as-is; the second component is `wasTemplated`. -/
def RenderKVSValue (value : JValue) (context : List (String × JValue)) :
    Except String JValue × Bool :=
  match value with
  | .str strValue =>
      if IsTemplated strValue then
        match RenderTemplate strValue context with
        | .error e => (.error e, true)
        | .ok rendered => (.ok (.str rendered), true)
      else (.ok value, false)
  | _ => (.ok value, false)

/-! ## KVS merge (`pullDeviceConfig`, KVS section) -/

/-- A key-value store map. -/
abbrev KVSMap := List (String × JValue)

/-- The skip condition of the KVS merge loop: the existing local value for
the key is a string containing template syntax. -/
def kvsPreserve (existingKVS : KVSMap) (key : String) : Bool :=
  match lookupA existingKVS key with
  | some (.str s) => IsTemplated s
  | _ => false

/-- The KVS merge of `pullDeviceConfig`: start from the existing local
map (preserving all local keys), then update with each device value
unless the current local value is templated. -/
def mergeKVS (existingKVS kvsData : KVSMap) : KVSMap :=
  kvsData.foldl
    (fun merged kv =>
      if kvsPreserve existingKVS kv.1 then merged else setA merged kv.1 kv.2)
    existingKVS

theorem mergeKVS_go_lookup (existingKVS : KVSMap) (kvsData : KVSMap)
    (acc : KVSMap) (hnd : NodupKeysA kvsData) (k : String) :
    lookupA
      (kvsData.foldl
        (fun merged kv =>
          if kvsPreserve existingKVS kv.1 then merged else setA merged kv.1 kv.2)
        acc) k =
      match lookupA kvsData k with
      | some v => if kvsPreserve existingKVS k then lookupA acc k else some v
      | none => lookupA acc k := by
  induction kvsData generalizing acc with
  | nil => simp [lookupA]
  | cons kv rem ih =>
      rcases kv with ⟨k₀, v₀⟩
      have hk₀ : k₀ ∉ keysA rem := by
        unfold NodupKeysA keysA at hnd
        simp only [List.map_cons, List.nodup_cons] at hnd
        exact hnd.1
      have hnd' : NodupKeysA rem := by
        unfold NodupKeysA keysA at hnd ⊢
        simp only [List.map_cons, List.nodup_cons] at hnd
        exact hnd.2
      rw [List.foldl_cons]
      rw [ih _ hnd']
      by_cases hk : k₀ = k
      · subst hk
        have hrem : lookupA rem k₀ = none := lookupA_eq_none_of_not_mem_keys rem k₀ hk₀
        have hhead : lookupA ((k₀, v₀) :: rem) k₀ = some v₀ := by
          rw [lookupA_cons]
          exact if_pos rfl
        rw [hrem, hhead]
        by_cases hp : kvsPreserve existingKVS k₀ = true
        · simp [hp]
        · simp [hp, lookupA_setA_self]
      · have hhead : lookupA ((k₀, v₀) :: rem) k = lookupA rem k := by
          rw [lookupA_cons]
          exact if_neg hk
        rw [hhead]
        have hacc : lookupA
            (if kvsPreserve existingKVS k₀ then acc else setA acc k₀ v₀) k =
            lookupA acc k := by
          by_cases hp : kvsPreserve existingKVS k₀ = true
          · rw [if_pos hp]
          · rw [if_neg hp]
            exact lookupA_setA_ne acc k₀ k v₀ hk
        rw [hacc]

/-- Pointwise characterization of the KVS merge: a remote key keeps the
local value when the local value is templated and takes the remote value
otherwise; local-only keys are untouched. -/
theorem lookupA_mergeKVS (existingKVS kvsData : KVSMap)
    (hnd : NodupKeysA kvsData) (k : String) :
    lookupA (mergeKVS existingKVS kvsData) k =
      match lookupA kvsData k with
      | some v =>
          if kvsPreserve existingKVS k then lookupA existingKVS k else some v
      | none => lookupA existingKVS k :=
  mergeKVS_go_lookup existingKVS kvsData existingKVS hnd k

/-! ## Manifest (`internal/storage/manifest.go`) -/

/-- A device entry in the manifest. `LastSync` is modelled as an abstract
timestamp. -/
structure Device : Type where
  deviceID : String
  name : String
  folder : String
  ipAddress : String
  macAddress : String
  model : String
  lastSync : Nat
deriving DecidableEq, Repr

/-- `AddDevice`: update the first existing entry with the same device id
in place, otherwise append the device. -/
def AddDevice : List Device → Device → List Device
  | [], device => [device]
  | d :: rest, device =>
      if d.deviceID = device.deviceID then device :: rest
      else d :: AddDevice rest device

/-- `GetDevice`: first entry with the given device id. -/
def GetDevice : List Device → String → Option Device
  | [], _ => none
  | d :: rest, deviceID =>
      if d.deviceID = deviceID then some d else GetDevice rest deviceID

/-- `UpdateLastSync`: set the last-sync time of the first entry with the
given device id. -/
def UpdateLastSync : List Device → String → Nat → List Device
  | [], _, _ => []
  | d :: rest, deviceID, syncTime =>
      if d.deviceID = deviceID then { d with lastSync := syncTime } :: rest
      else d :: UpdateLastSync rest deviceID syncTime

/-! ## Shelly resource records (`internal/shelly/types.go`) -/

/-- `shelly.Script`: a `Script.List` entry. -/
structure Script : Type where
  id : Nat
  name : String
  enable : Bool
  running : Bool
deriving DecidableEq, Repr

/-- A call inside a schedule (`shelly.ScheduleCall`). -/
structure ScheduleCall : Type where
  method : String
  params : List (String × JValue)

/-- `shelly.Schedule`. -/
structure Schedule : Type where
  id : Nat
  enable : Bool
  timespec : String
  calls : List ScheduleCall

/-- An action inside a webhook (`shelly.Action`). -/
structure Action : Type where
  method : String
  params : List (String × JValue)

/-- `shelly.Webhook`. -/
structure Webhook : Type where
  id : Nat
  cid : Nat
  enable : Bool
  event : String
  name : String
  urls : List String
  actions : List Action

/-- `shelly.DeviceInfo` (`Shelly.GetDeviceInfo` result; only the fields
read by the sync engine). -/
structure PullDeviceInfo : Type where
  id : String
  name : String
  model : String
  fw : String
deriving DecidableEq, Repr

/-- `storage.DeviceMetadata` as written to `device.yaml` during pull. -/
structure DeviceMetadata : Type where
  deviceID : String
  name : String
  model : String
  firmware : String
  ipAddress : String
  macAddress : String
deriving DecidableEq, Repr

/-- A `Shelly.GetComponents` entry; the marshalled component payload is
kept opaque. -/
structure ComponentInfo : Type where
  key : String
  data : JValue

/-- A local script file pair (`scripts/script-<id>.js` plus its
`meta.json`), keyed externally by id. -/
structure LocalScriptFile : Type where
  name : String
  code : String
  enable : Bool

/-- The remote responses one device gives during a pull; each field is the
outcome of the corresponding RPC (`Except` error = failed call).  Script
code fetches are per script (`none` = `Script.GetCode` failed). -/
structure PullEnv : Type where
  deviceInfo : Except String PullDeviceInfo
  shellyConfig : Except String (List (String × JValue))
  scripts : Except String (List (Script × Option String))
  schedules : Except String (List Schedule)
  webhooks : Except String (List Webhook)
  kvs : Except String KVSMap
  components : Except String (List ComponentInfo)

/-- The on-disk content of one device folder. -/
structure DeviceLocal : Type where
  folderExists : Bool
  metadata : Option DeviceMetadata
  configs : List (String × JValue)
  scripts : List (Nat × LocalScriptFile)
  schedules : List (Nat × Schedule)
  webhooks : List (Nat × Webhook)
  kvs : KVSMap
  virtuals : List ((String × Nat) × JValue)
  groups : List (Nat × String)

/-- `gitops.SyncResult`. -/
structure SyncResult : Type where
  deviceID : String
  success : Bool
  error : Option String
  message : String
deriving DecidableEq, Repr

/-- The effect of `pullDeviceConfig` on one device: its result slot, the
new folder content, the (possibly renamed) device record, and which
manifest mutations were performed. -/
structure PullOutcome : Type where
  result : SyncResult
  fs : DeviceLocal
  device : Device
  manifestAdd : Bool
  lastSyncUpdated : Bool

/-- Folder-name sanitization during pull: lowercase, spaces and
underscores replaced by dashes. -/
def sanitizeName (name : String) : String :=
  String.mk (name.data.map (fun c =>
    let c' := c.toLower
    if c' = ' ' ∨ c' = '_' then '-' else c'))

/-- Replace the colon of a component key to form its filename
(`"switch:0"` to `"switch-0"`). -/
def componentFileName (key : String) : String :=
  String.mk (key.data.map (fun c => if c = ':' then '-' else c))

/-- Prefix test on strings by character list (`strings.HasPrefix`). -/
def strStartsWith (s pre : String) : Bool :=
  List.isPrefixOf pre.data s.data

/-- Decimal value of a digit list. -/
def digitsToNat (l : List Char) : Nat :=
  l.foldl (fun n c => n * 10 + (c.toNat - 48)) 0

/-- `strconv.Atoi` on the digit-only component id suffixes: the whole
string must be a nonempty digit sequence. -/
def atoiNat (s : String) : Option Nat :=
  if ¬ s.data.isEmpty ∧ s.data.all Char.isDigit then some (digitsToNat s.data)
  else none

/-- One step of the component-config save loop of `pullDeviceConfig`:
skip the cloud config and per-script configs, save everything else. -/
def pullConfigStep (acc : List (String × JValue) × Nat) (kv : String × JValue) :
    List (String × JValue) × Nat :=
  if kv.1 = "cloud" then acc
  else if strStartsWith kv.1 "script:" then acc
  else (setA acc.1 (componentFileName kv.1) kv.2, acc.2 + 1)

/-- The script save loop of pull: scripts whose code fetch failed are
skipped, the rest are saved by id. -/
def pullScriptsStep (acc : List (Nat × LocalScriptFile) × Nat)
    (entry : Script × Option String) : List (Nat × LocalScriptFile) × Nat :=
  match entry.2 with
  | none => acc
  | some code =>
      (setA acc.1 entry.1.id ⟨entry.1.name, code, entry.1.enable⟩, acc.2 + 1)

/-- The virtual component types recognized by pull. -/
def isVirtualComponentType (t : String) : Bool :=
  t = "boolean" ∨ t = "number" ∨ t = "text" ∨ t = "enum" ∨ t = "button"

/-- Split a component key at its first colon, when it has one. -/
def splitComponentKey (key : String) : Option (String × String) :=
  if key.data.contains ':' then
    some (String.mk (key.data.takeWhile (fun c => ¬ c = ':')),
      String.mk ((key.data.dropWhile (fun c => ¬ c = ':')).drop 1))
  else none

/-- The component save loop of pull: only virtual components and groups
with a numeric id are saved. -/
def pullComponentsStep
    (acc : (List ((String × Nat) × JValue) × List (Nat × String)) × Nat × Nat)
    (component : ComponentInfo) :
    (List ((String × Nat) × JValue) × List (Nat × String)) × Nat × Nat :=
  match splitComponentKey component.key with
  | none => acc
  | some (componentType, idStr) =>
      if isVirtualComponentType componentType then
        match atoiNat idStr with
        | none => acc
        | some componentID =>
            ((setA acc.1.1 (componentType, componentID) component.data, acc.1.2),
              acc.2.1 + 1, acc.2.2)
      else if componentType = "group" then
        match atoiNat idStr with
        | none => acc
        | some componentID =>
            ((setA acc.1.1 (componentType, componentID) component.data,
              setA acc.1.2 componentID componentType),
              acc.2.1, acc.2.2 + 1)
      else acc

/-- One count part of a success message. -/
def countPart (n : Nat) (label : String) : List String :=
  if 0 < n then [toString n ++ " " ++ label] else []

/-- `pullDeviceConfig`: pull the configuration of a single device.  The
model follows the success path of every file-system operation; remote
calls fail according to `env`. -/
def pullDeviceConfig (env : PullEnv) (device : Device) (fs0 : DeviceLocal) (_now : Nat) :
    PullOutcome :=
  match env.deviceInfo with
  | .error e =>
      { result := ⟨device.deviceID, false, some ("failed to get device info: " ++ e), ""⟩,
        fs := fs0, device := device, manifestAdd := false, lastSyncUpdated := false }
  | .ok deviceInfo =>
      let deviceName := if deviceInfo.name = "" then device.name else deviceInfo.name
      let nameChanged := deviceName ≠ device.name ∧ deviceName ≠ ""
      let device1 :=
        if nameChanged then
          { device with
            name := deviceName,
            folder := sanitizeName deviceName ++ "-" ++ device.deviceID }
        else device
      let fs1 := { fs0 with folderExists := true }
      let fs2 := { fs1 with
        metadata := some ⟨device.deviceID, deviceName, deviceInfo.model,
          deviceInfo.fw, device.ipAddress, device.macAddress⟩ }
      match env.shellyConfig with
      | .error e =>
          { result := ⟨device.deviceID, false,
              some ("failed to get shelly config: " ++ e), ""⟩,
            fs := fs2, device := device1,
            manifestAdd := decide nameChanged, lastSyncUpdated := false }
      | .ok configMap =>
          let (configs', configCount) := configMap.foldl pullConfigStep (fs2.configs, 0)
          let (scripts', scriptCount) :=
            match env.scripts with
            | .error _ => (fs2.scripts, 0)
            | .ok scriptList => scriptList.foldl pullScriptsStep (fs2.scripts, 0)
          let (schedules', scheduleCount) :=
            match env.schedules with
            | .error _ => (fs2.schedules, 0)
            | .ok scheduleList =>
                scheduleList.foldl
                  (fun (acc : List (Nat × Schedule) × Nat) (s : Schedule) =>
                    (setA acc.1 s.id s, acc.2 + 1)) (fs2.schedules, 0)
          let (webhooks', webhookCount) :=
            match env.webhooks with
            | .error _ => (fs2.webhooks, 0)
            | .ok webhookList =>
                webhookList.foldl
                  (fun (acc : List (Nat × Webhook) × Nat) (w : Webhook) =>
                    (setA acc.1 w.id w, acc.2 + 1)) (fs2.webhooks, 0)
          let (kvs', kvsCount) :=
            match env.kvs with
            | .error _ => (fs2.kvs, 0)
            | .ok kvsData =>
                if 0 < kvsData.length then
                  let mergedKVS := mergeKVS fs2.kvs kvsData
                  (mergedKVS, mergedKVS.length)
                else (fs2.kvs, 0)
          let ((virtuals', groups'), virtualComponentCount, groupCount) :=
            match env.components with
            | .error _ => ((fs2.virtuals, fs2.groups), 0, 0)
            | .ok components =>
                components.foldl pullComponentsStep ((fs2.virtuals, fs2.groups), 0, 0)
          let fs3 := { fs2 with
            configs := configs', scripts := scripts', schedules := schedules',
            webhooks := webhooks', kvs := kvs', virtuals := virtuals',
            groups := groups' }
          let msgParts :=
            countPart configCount "config(s)" ++
            countPart scriptCount "script(s)" ++
            countPart scheduleCount "schedule(s)" ++
            countPart webhookCount "webhook(s)" ++
            countPart kvsCount "KVS item(s)" ++
            countPart virtualComponentCount "virtual component(s)" ++
            countPart groupCount "group(s)"
          let message :=
            if msgParts.isEmpty then "synced device"
            else "saved " ++ String.intercalate ", " msgParts
          { result := ⟨device.deviceID, true, none, message⟩,
            fs := fs3, device := device1,
            manifestAdd := decide nameChanged, lastSyncUpdated := true }

/-- `PullFromDevices`: the pull orchestrator.  Aborts before any
per-device work when the working tree is dirty (or the status check
fails); otherwise every device is pulled into its own result slot and a
device failure never fails the overall operation.  Concurrent manifest
mutations are modelled by a sequential fold in device order. -/
def PullFromDevices (hasChanges : Except String Bool) (manifest : List Device)
    (envOf : String → PullEnv) (localOf : String → DeviceLocal) (now : Nat) :
    Except String (List SyncResult) × List Device × (String → DeviceLocal) :=
  match hasChanges with
  | .error e =>
      (.error ("failed to check repository status: " ++ e), manifest, localOf)
  | .ok true =>
      (.error "cannot pull: working tree has uncommitted changes. Please commit or stash your changes first",
        manifest, localOf)
  | .ok false =>
      let outcomes := manifest.map
        (fun d => (d, pullDeviceConfig (envOf d.deviceID) d (localOf d.deviceID) now))
      let results := outcomes.map (fun p => p.2.result)
      let manifest' := outcomes.foldl
        (fun m p =>
          let m1 := if p.2.manifestAdd then AddDevice m p.2.device else m
          if p.2.lastSyncUpdated then UpdateLastSync m1 p.1.deviceID now else m1)
        manifest
      let localOf' := fun id =>
        match outcomes.find? (fun p => p.1.deviceID = id) with
        | some p => p.2.fs
        | none => localOf id
      (.ok results, manifest', localOf')

/-- Whether an `Except` is a success. -/
def isOkE {ε α : Type} : Except ε α → Bool
  | .ok _ => true
  | .error _ => false

/-! ## Push model (`pushDeviceConfig`)

The push reconciler is modelled as a pure function from the local device
folder and the current remote state to the per-device result, the list of
mutating remote calls issued (in order), and the remote state after those
calls are applied.  Ids for created scripts / schedules / webhooks are
remote-assigned, modelled by per-class counters. -/

/-- A mutating remote RPC.  `deleteScript` is part of the client API
(`Script.Delete`) and is included so that its absence from push traces is
expressible. -/
inductive RemoteCall : Type where
  | setComponentConfig (component : String) (id : Option Nat) (config : List (String × JValue))
  | createScript (name : String)
  | deleteScript (id : Nat)
  | stopScript (id : Nat)
  | putScriptCode (id : Nat) (code : String)
  | setScriptConfig (id : Nat) (name : String) (enable : Bool)
  | startScript (id : Nat)
  | createSchedule (schedule : Schedule)
  | updateSchedule (schedule : Schedule)
  | deleteSchedule (id : Nat)
  | createWebhook (webhook : Webhook)
  | updateWebhook (webhook : Webhook)
  | deleteWebhook (id : Nat)
  | setKVS (key : String) (value : JValue)
  | deleteKVS (key : String)

/-- A script as held on the device: the `Script.List` fields plus the
stored code. -/
structure RemoteScript : Type where
  id : Nat
  name : String
  enable : Bool
  running : Bool
  code : String
deriving DecidableEq, Repr

/-- The remote state of one device, as far as push mutates it. -/
structure RemoteState : Type where
  configs : List ((String × Option Nat) × List (String × JValue))
  scripts : List RemoteScript
  nextScriptId : Nat
  schedules : List Schedule
  nextScheduleId : Nat
  webhooks : List Webhook
  nextWebhookId : Nat
  kvs : KVSMap

/-- `storage.ScriptMetadata` (`scripts/script-<id>.meta.json`). -/
structure ScriptMetadata : Type where
  id : Nat
  name : String
  enable : Bool
deriving DecidableEq, Repr

/-- The local device folder as read during a push. -/
structure LocalState : Type where
  folderExists : Bool
  componentFiles : List (String × List (String × JValue))
  scripts : List (ScriptMetadata × String)
  schedules : List Schedule
  webhooks : List Webhook
  kvs : KVSMap

/-- Capitalize the first letter (`strings.Title` on the one-word
component names produced by pull). -/
def titleCase (s : String) : String :=
  match s.data with
  | [] => ""
  | c :: rest => String.mk (c.toUpper :: rest)

/-- Parse the numeric id suffix of a component filename (`Sscanf` with a
decimal verb on the digit-led suffixes produced by pull). -/
def parseLeadingNat (s : String) : Option Nat :=
  let digits := s.data.takeWhile Char.isDigit
  if digits.isEmpty then none else some (digitsToNat digits)

/-- Parse a component filename: `"switch-0"` gives `("Switch", some 0)`,
`"sys"` gives `("Sys", none)`. -/
def parseComponentFile (name : String) : String × Option Nat :=
  if name.data.contains '-' then
    let base := String.mk (name.data.takeWhile (fun c => ¬ c = '-'))
    let after := String.mk ((name.data.dropWhile (fun c => ¬ c = '-')).drop 1)
    (titleCase base, parseLeadingNat after)
  else (titleCase name, none)

/-- One step of the component-config push loop: skip the cloud config and
legacy per-script configs, apply everything else with `SetConfig`. -/
def pushConfigStep
    (acc : Nat × List RemoteCall × List ((String × Option Nat) × List (String × JValue)))
    (file : String × List (String × JValue)) :
    Nat × List RemoteCall × List ((String × Option Nat) × List (String × JValue)) :=
  if file.1 = "cloud" then acc
  else if strStartsWith file.1 "script-" then acc
  else
    let parsed := parseComponentFile file.1
    (acc.1 + 1,
      acc.2.1 ++ [RemoteCall.setComponentConfig parsed.1 parsed.2 file.2],
      setA acc.2.2 parsed file.2)

/-- The component-config phase of push. -/
def pushConfigsPhase (componentFiles : List (String × List (String × JValue)))
    (configs : List ((String × Option Nat) × List (String × JValue))) :
    Nat × List RemoteCall × List ((String × Option Nat) × List (String × JValue)) :=
  componentFiles.foldl pushConfigStep (0, [], configs)

/-- Set the running flag of the scripts with the given id. -/
def setScriptRunning (l : List RemoteScript) (id : Nat) (r : Bool) : List RemoteScript :=
  l.map (fun s => if s.id = id then { s with running := r } else s)

/-- Store code into the scripts with the given id (`Script.PutCode`). -/
def setScriptCode (l : List RemoteScript) (id : Nat) (code : String) : List RemoteScript :=
  l.map (fun s => if s.id = id then { s with code := code } else s)

/-- Apply name and enable configuration (`Script.SetConfig`). -/
def setScriptNameEnable (l : List RemoteScript) (id : Nat) (name : String) (enable : Bool) :
    List RemoteScript :=
  l.map (fun s => if s.id = id then { s with name := name, enable := enable } else s)

/-- Push one local script against the device-scripts snapshot taken before
the loop: create when absent remotely (adopting the assigned id for the
rest of this record's calls), stop first when the remote copy is running,
then upload code, apply config, and start only when enabled. -/
def pushOneScript (snapshot : List RemoteScript) (meta : ScriptMetadata) (code : String)
    (scripts : List RemoteScript) (next : Nat) :
    List RemoteCall × List RemoteScript × Nat :=
  match snapshot.find? (fun s => s.id = meta.id) with
  | none =>
      let newId := next
      let afterCreate := scripts ++ [⟨newId, meta.name, false, false, ""⟩]
      let afterPut := setScriptCode afterCreate newId code
      let afterCfg := setScriptNameEnable afterPut newId meta.name meta.enable
      if meta.enable then
        ([.createScript meta.name, .putScriptCode newId code,
            .setScriptConfig newId meta.name meta.enable, .startScript newId],
          setScriptRunning afterCfg newId true, next + 1)
      else
        ([.createScript meta.name, .putScriptCode newId code,
            .setScriptConfig newId meta.name meta.enable],
          afterCfg, next + 1)
  | some existingScript =>
      let pre : List RemoteCall :=
        if existingScript.running then [.stopScript meta.id] else []
      let scripts1 :=
        if existingScript.running then setScriptRunning scripts meta.id false else scripts
      let afterPut := setScriptCode scripts1 meta.id code
      let afterCfg := setScriptNameEnable afterPut meta.id meta.name meta.enable
      if meta.enable then
        (pre ++ [.putScriptCode meta.id code,
            .setScriptConfig meta.id meta.name meta.enable, .startScript meta.id],
          setScriptRunning afterCfg meta.id true, next)
      else
        (pre ++ [.putScriptCode meta.id code,
            .setScriptConfig meta.id meta.name meta.enable],
          afterCfg, next)

/-- The scripts phase of push. -/
def pushScriptsPhase (localScripts : List (ScriptMetadata × String))
    (scripts : List RemoteScript) (next : Nat) :
    Nat × List RemoteCall × List RemoteScript × Nat :=
  let snapshot := scripts
  localScripts.foldl
    (fun acc entry =>
      let step := pushOneScript snapshot entry.1 entry.2 acc.2.2.1 acc.2.2.2
      (acc.1 + 1, acc.2.1 ++ step.1, step.2.1, step.2.2))
    (0, [], scripts, next)

/-- The shared shape of the schedule and webhook phases: update every
local record with a matching remote id, create (with a remote-assigned
id) every local record without one, then delete every remote record whose
id has no local match.  Partial failures do not arise on the success
path. -/
def reconcilePhase {α : Type} (getId : α → Nat) (withId : α → Nat → α)
    (mkCreate mkUpdate : α → RemoteCall) (mkDelete : Nat → RemoteCall)
    (locals : List α) (snapshot : List α) (next : Nat) :
    Nat × List RemoteCall × List α × Nat :=
  let step1 := locals.foldl
    (fun (acc : Nat × List RemoteCall × List α × Nat) ls =>
      if snapshot.any (fun r => getId r = getId ls) then
        (acc.1 + 1, acc.2.1 ++ [mkUpdate ls],
          acc.2.2.1.map (fun r => if getId r = getId ls then ls else r), acc.2.2.2)
      else
        (acc.1 + 1, acc.2.1 ++ [mkCreate ls],
          acc.2.2.1 ++ [withId ls acc.2.2.2], acc.2.2.2 + 1))
    (0, [], snapshot, next)
  let deletes := snapshot.foldl
    (fun (acc : List RemoteCall × List α) r =>
      if locals.any (fun ls => getId ls = getId r) then acc
      else (acc.1 ++ [mkDelete (getId r)], acc.2.filter (fun x => ¬ getId x = getId r)))
    ([], step1.2.2.1)
  (step1.1, step1.2.1 ++ deletes.1, deletes.2, step1.2.2.2)

/-- One step of the KVS push loop: render (skipping the key on a template
error) and set the rendered value. -/
def pushKvsStep (context : List (String × JValue)) (acc : Nat × List RemoteCall × KVSMap)
    (kv : String × JValue) : Nat × List RemoteCall × KVSMap :=
  match RenderKVSValue kv.2 context with
  | (.error _, _) => acc
  | (.ok renderedValue, _) =>
      (acc.1 + 1, acc.2.1 ++ [RemoteCall.setKVS kv.1 renderedValue],
        setA acc.2.2 kv.1 renderedValue)

/-- The KVS phase of push: skipped entirely when the local KVS is empty;
otherwise set every rendered local entry, then delete every device key
absent locally (against the snapshot taken before the sets). -/
def pushKvsPhase (localKVS : KVSMap) (context : List (String × JValue)) (kvs : KVSMap) :
    Nat × List RemoteCall × KVSMap :=
  if localKVS.isEmpty then (0, [], kvs)
  else
    let deviceKVS := kvs
    let afterSets := localKVS.foldl (pushKvsStep context) (0, [], kvs)
    let deletes := deviceKVS.foldl
      (fun (acc : List RemoteCall × KVSMap) kv =>
        if containsKeyA localKVS kv.1 then acc
        else (acc.1 ++ [RemoteCall.deleteKVS kv.1], removeA acc.2 kv.1))
      ([], afterSets.2.2)
    (afterSets.1, afterSets.2.1 ++ deletes.1, deletes.2)

/-- `pushDeviceConfig`: push the local configuration of one device.  The
folder-existence check comes first; dry-run short-circuits before any
remote interaction; otherwise the phases run in the fixed order component
configs, scripts, schedules, webhooks, KVS. -/
def pushDeviceConfig (deviceID : String) (ls : LocalState)
    (context : List (String × JValue)) (dryRun : Bool) (st : RemoteState) :
    SyncResult × List RemoteCall × RemoteState :=
  if ¬ ls.folderExists then
    (⟨deviceID, false, some "device folder does not exist", ""⟩, [], st)
  else if dryRun then
    (⟨deviceID, true, none, "dry-run: would push all configurations"⟩, [], st)
  else
    let configsPhase := pushConfigsPhase ls.componentFiles st.configs
    let scriptsPhase := pushScriptsPhase ls.scripts st.scripts st.nextScriptId
    let schedulesPhase := reconcilePhase Schedule.id (fun s i => { s with id := i })
      RemoteCall.createSchedule RemoteCall.updateSchedule RemoteCall.deleteSchedule
      ls.schedules st.schedules st.nextScheduleId
    let webhooksPhase := reconcilePhase Webhook.id (fun w i => { w with id := i })
      RemoteCall.createWebhook RemoteCall.updateWebhook RemoteCall.deleteWebhook
      ls.webhooks st.webhooks st.nextWebhookId
    let kvsPhase := pushKvsPhase ls.kvs context st.kvs
    let msgParts :=
      countPart configsPhase.1 "config(s)" ++
      countPart scriptsPhase.1 "script(s)" ++
      countPart schedulesPhase.1 "schedule(s)" ++
      countPart webhooksPhase.1 "webhook(s)" ++
      countPart kvsPhase.1 "KVS item(s)"
    let message :=
      if msgParts.isEmpty then "pushed to device"
      else "pushed " ++ String.intercalate ", " msgParts
    (⟨deviceID, true, none, message⟩,
      configsPhase.2.1 ++ scriptsPhase.2.1 ++ schedulesPhase.2.1 ++
        webhooksPhase.2.1 ++ kvsPhase.2.1,
      { st with
        configs := configsPhase.2.2,
        scripts := scriptsPhase.2.2.1, nextScriptId := scriptsPhase.2.2.2,
        schedules := schedulesPhase.2.2.1, nextScheduleId := schedulesPhase.2.2.2,
        webhooks := webhooksPhase.2.2.1, nextWebhookId := webhooksPhase.2.2.2,
        kvs := kvsPhase.2.2 })

/-- The config updates a push performs, as key-value pairs. -/
def configUpdates (componentFiles : List (String × List (String × JValue))) :
    List ((String × Option Nat) × List (String × JValue)) :=
  (componentFiles.filter
    (fun f => ¬ f.1 = "cloud" ∧ ¬ strStartsWith f.1 "script-")).map
    (fun f => (parseComponentFile f.1, f.2))

/-- Device-side well-formedness: every resource class keyed without
duplicates. -/
def RemoteState.WF (st : RemoteState) : Prop :=
  NodupKeysA st.configs ∧ (st.scripts.map RemoteScript.id).Nodup ∧
    (st.schedules.map Schedule.id).Nodup ∧ (st.webhooks.map Webhook.id).Nodup ∧
    NodupKeysA st.kvs

/-- Local well-formedness: one file per resource id / config key. -/
def LocalState.WF (ls : LocalState) : Prop :=
  (keysA (configUpdates ls.componentFiles)).Nodup ∧
    (ls.scripts.map (fun p => p.1.id)).Nodup ∧
    (ls.schedules.map Schedule.id).Nodup ∧ (ls.webhooks.map Webhook.id).Nodup ∧
    NodupKeysA ls.kvs

instance (st : RemoteState) : Decidable st.WF := by
  unfold RemoteState.WF
  infer_instance

instance (ls : LocalState) : Decidable ls.WF := by
  unfold LocalState.WF
  infer_instance

/-! ## By-key list toolkit -/

/-- Find the first record with the given key. -/
def findByKey {α : Type} (key : α → Nat) (l : List α) (k : Nat) : Option α :=
  l.find? (fun x => key x = k)

theorem findByKey_eq_none {α : Type} (key : α → Nat) (l : List α) (k : Nat)
    (h : ∀ x ∈ l, ¬ key x = k) : findByKey key l k = none := by
  unfold findByKey
  exact List.find?_eq_none.mpr (fun x hx => by simpa using h x hx)

theorem findByKey_cons {α : Type} (key : α → Nat) (x : α) (l : List α) (k : Nat) :
    findByKey key (x :: l) k =
      if key x = k then some x else findByKey key l k := by
  unfold findByKey
  by_cases h : key x = k
  · rw [if_pos h]
    exact List.find?_cons_of_pos l (by simpa using h)
  · rw [if_neg h]
    exact List.find?_cons_of_neg l (by simpa using h)

theorem findByKey_of_mem_nodup {α : Type} (key : α → Nat) (l : List α) (x : α)
    (hx : x ∈ l) (hnd : (l.map key).Nodup) :
    findByKey key l (key x) = some x := by
  induction l with
  | nil => cases hx
  | cons y t ih =>
      have hnd' : (t.map key).Nodup := by
        simpa using (List.nodup_cons.mp (by simpa using hnd)).2
      rcases List.mem_cons.mp hx with heq | htail
      · subst heq
        rw [findByKey_cons, if_pos rfl]
      · have hne : ¬ key y = key x := by
          intro h
          have : key y ∈ t.map key := List.mem_map.mpr ⟨x, htail, h.symm⟩
          exact (List.nodup_cons.mp (by simpa using hnd)).1 this
        rw [findByKey_cons, if_neg hne]
        exact ih htail hnd'

theorem findByKey_isSome_iff_any {α : Type} (key : α → Nat) (l : List α) (k : Nat) :
    (findByKey key l k).isSome = l.any (fun x => key x = k) := by
  induction l with
  | nil => rfl
  | cons x t ih =>
      rw [findByKey_cons]
      by_cases h : key x = k
      · simp [h]
      · simp only [List.any_cons, h, decide_False, Bool.false_or, if_neg h]
        exact ih

/-- Two lists of keyed records with the same key sequence, no duplicate
keys, and the same record at every key are equal. -/
theorem ext_by_key {α : Type} (key : α → Nat) (l₁ l₂ : List α)
    (hids : l₁.map key = l₂.map key) (hnd : (l₁.map key).Nodup)
    (hfind : ∀ k, findByKey key l₁ k = findByKey key l₂ k) : l₁ = l₂ := by
  induction l₁ generalizing l₂ with
  | nil =>
      cases l₂ with
      | nil => rfl
      | cons y t => simp at hids
  | cons x t ih =>
      cases l₂ with
      | nil => simp at hids
      | cons y t₂ =>
          simp only [List.map_cons, List.cons.injEq] at hids
          have hkey : key x = key y := hids.1
          have hxy : x = y := by
            have h₁ := hfind (key x)
            rw [findByKey_cons, if_pos rfl, findByKey_cons, if_pos hkey.symm] at h₁
            injection h₁
          subst hxy
          have hnd' : (t.map key).Nodup := (List.nodup_cons.mp (by simpa using hnd)).2
          have hnotin : key x ∉ t.map key := (List.nodup_cons.mp (by simpa using hnd)).1
          refine congrArg (x :: ·) (ih t₂ hids.2 hnd' ?_)
          intro k
          by_cases hk : key x = k
          · subst hk
            have h₁ : findByKey key t (key x) = none := by
              apply findByKey_eq_none
              intro z hz hzk
              exact hnotin (List.mem_map.mpr ⟨z, hz, hzk⟩)
            have h₂ : findByKey key t₂ (key x) = none := by
              apply findByKey_eq_none
              intro z hz hzk
              have : key x ∈ t₂.map key := List.mem_map.mpr ⟨z, hz, hzk⟩
              rw [← hids.2] at this
              exact hnotin this
            rw [h₁, h₂]
          · have h₁ := hfind k
            rw [findByKey_cons, if_neg hk, findByKey_cons, if_neg hk] at h₁
            exact h₁
/-! ## Sequences of map assignments -/

/-- Apply a sequence of Go map assignments. -/
def applySets {α β : Type} [DecidableEq α] (u : List (α × β)) (m : List (α × β)) :
    List (α × β) :=
  u.foldl (fun acc kv => setA acc kv.1 kv.2) m

theorem lookupA_applySets {α β : Type} [DecidableEq α]
    (u m : List (α × β)) (hnd : NodupKeysA u) (k : α) :
    lookupA (applySets u m) k =
      match lookupA u k with
      | some v => some v
      | none => lookupA m k := by
  induction u generalizing m with
  | nil => simp [applySets, lookupA]
  | cons kv rest ih =>
      rcases kv with ⟨k₀, v₀⟩
      have hk₀ : k₀ ∉ keysA rest := by
        unfold NodupKeysA keysA at hnd
        simp only [List.map_cons, List.nodup_cons] at hnd
        exact hnd.1
      have hnd' : NodupKeysA rest := by
        unfold NodupKeysA keysA at hnd ⊢
        simp only [List.map_cons, List.nodup_cons] at hnd
        exact hnd.2
      unfold applySets
      rw [List.foldl_cons]
      have ih' := ih (setA m k₀ v₀) hnd'
      unfold applySets at ih'
      rw [ih']
      by_cases hk : k₀ = k
      · subst hk
        have hrest : lookupA rest k₀ = none := lookupA_eq_none_of_not_mem_keys rest k₀ hk₀
        have hhead : lookupA ((k₀, v₀) :: rest) k₀ = some v₀ := by
          rw [lookupA_cons]
          exact if_pos rfl
        rw [hrest, hhead, lookupA_setA_self]
      · have hhead : lookupA ((k₀, v₀) :: rest) k = lookupA rest k := by
          rw [lookupA_cons]
          exact if_neg hk
        rw [hhead, lookupA_setA_ne m k₀ k v₀ hk]

theorem nodupKeysA_applySets {α β : Type} [DecidableEq α]
    (u m : List (α × β)) (h : NodupKeysA m) : NodupKeysA (applySets u m) := by
  induction u generalizing m with
  | nil => exact h
  | cons kv rest ih =>
      unfold applySets
      rw [List.foldl_cons]
      exact ih (setA m kv.1 kv.2) (nodupKeysA_setA m kv.1 kv.2 h)

theorem applySets_stable {α β : Type} [DecidableEq α]
    (u m : List (α × β)) (hndm : NodupKeysA m)
    (h : ∀ kv ∈ u, lookupA m kv.1 = some kv.2) :
    applySets u m = m := by
  unfold applySets
  apply foldl_fixed
  intro kv hkv
  exact setA_eq_of_lookup m kv.1 kv.2 hndm (h kv hkv)

/-- Applying the same assignment sequence twice is the same as applying
it once. -/
theorem applySets_idem {α β : Type} [DecidableEq α]
    (u m : List (α × β)) (hndu : NodupKeysA u) (hndm : NodupKeysA m) :
    applySets u (applySets u m) = applySets u m := by
  apply applySets_stable
  · exact nodupKeysA_applySets u m hndm
  · intro kv hkv
    rw [lookupA_applySets u m hndu kv.1]
    have : lookupA u kv.1 = some kv.2 := by
      have hkv' : (kv.1, kv.2) ∈ u := by
        simpa using hkv
      exact lookupA_of_mem_nodup u kv.1 kv.2 hkv' hndu
    rw [this]

theorem mem_keysA_applySets {α β : Type} [DecidableEq α]
    (u m : List (α × β)) (k : α) (h : k ∈ keysA (applySets u m)) :
    k ∈ keysA m ∨ k ∈ keysA u := by
  induction u generalizing m with
  | nil => exact Or.inl h
  | cons kv rest ih =>
      unfold applySets at h
      rw [List.foldl_cons] at h
      have h' := ih (setA m kv.1 kv.2) (by simpa [applySets] using h)
      rcases h' with hm | hu
      · by_cases hc : containsKeyA m kv.1 = true
        · rw [keysA_setA_of_mem m kv.1 kv.2 hc] at hm
          exact Or.inl hm
        · rw [keysA_setA_of_not_mem m kv.1 kv.2 (by simpa using hc)] at hm
          rcases List.mem_append.mp hm with hm' | hk
          · exact Or.inl hm'
          · simp only [List.mem_singleton] at hk
            subst hk
            right
            unfold keysA
            simp
      · right
        unfold keysA
        rw [List.map_cons]
        exact List.mem_cons_of_mem _ hu

/-! ## Configs phase characterization -/

theorem pushConfigsPhase_go (files : List (String × List (String × JValue)))
    (n : Nat) (tr : List RemoteCall)
    (c : List ((String × Option Nat) × List (String × JValue))) :
    files.foldl pushConfigStep (n, tr, c) =
      (n + (configUpdates files).length,
        tr ++ (configUpdates files).map
          (fun kv => RemoteCall.setComponentConfig kv.1.1 kv.1.2 kv.2),
        applySets (configUpdates files) c) := by
  induction files generalizing n tr c with
  | nil => simp [configUpdates, applySets]
  | cons f rest ih =>
      rw [List.foldl_cons]
      by_cases h1 : f.1 = "cloud"
      · have hstep : pushConfigStep (n, tr, c) f = (n, tr, c) := by
          unfold pushConfigStep
          rw [if_pos h1]
        have hupd : configUpdates (f :: rest) = configUpdates rest := by
          unfold configUpdates
          rw [List.filter_cons]
          simp [h1]
        rw [hstep, hupd, ih]
      · by_cases h2 : strStartsWith f.1 "script-" = true
        · have hstep : pushConfigStep (n, tr, c) f = (n, tr, c) := by
            unfold pushConfigStep
            rw [if_neg h1, if_pos h2]
          have hupd : configUpdates (f :: rest) = configUpdates rest := by
            unfold configUpdates
            rw [List.filter_cons]
            simp [h1, h2]
          rw [hstep, hupd, ih]
        · have hstep : pushConfigStep (n, tr, c) f =
              (n + 1,
                tr ++ [RemoteCall.setComponentConfig (parseComponentFile f.1).1
                  (parseComponentFile f.1).2 f.2],
                setA c (parseComponentFile f.1) f.2) := by
            unfold pushConfigStep
            rw [if_neg h1, if_neg h2]
          have hupd : configUpdates (f :: rest) =
              (parseComponentFile f.1, f.2) :: configUpdates rest := by
            unfold configUpdates
            rw [List.filter_cons]
            simp [h1, h2]
          rw [hstep, hupd, ih]
          have hsets : applySets ((parseComponentFile f.1, f.2) :: configUpdates rest) c =
              applySets (configUpdates rest) (setA c (parseComponentFile f.1) f.2) := by
            unfold applySets
            rw [List.foldl_cons]
          rw [hsets]
          have hn : n + 1 + (configUpdates rest).length =
              n + ((configUpdates rest).length + 1) := by omega
          simp [hn]

theorem pushConfigsPhase_eq (files : List (String × List (String × JValue)))
    (c : List ((String × Option Nat) × List (String × JValue))) :
    pushConfigsPhase files c =
      ((configUpdates files).length,
        (configUpdates files).map
          (fun kv => RemoteCall.setComponentConfig kv.1.1 kv.1.2 kv.2),
        applySets (configUpdates files) c) := by
  unfold pushConfigsPhase
  rw [pushConfigsPhase_go files 0 [] c]
  simp
/-! ## KVS phase characterization -/

/-- The successfully rendered local KVS entries, in order. -/
def renderedKVS (localKVS : KVSMap) (context : List (String × JValue)) : KVSMap :=
  localKVS.filterMap (fun kv =>
    match RenderKVSValue kv.2 context with
    | (.ok r, _) => some (kv.1, r)
    | (.error _, _) => none)

/-- The device keys deleted by the KVS phase: device keys absent from the
local set. -/
def kvsDeleteKeys (localKVS deviceKVS : KVSMap) : List String :=
  (keysA deviceKVS).filter (fun k => ¬ containsKeyA localKVS k)

/-- Apply a sequence of Go map deletions. -/
def removeList {α β : Type} [DecidableEq α] (ks : List α) (m : List (α × β)) :
    List (α × β) :=
  ks.foldl (fun acc k => removeA acc k) m

theorem lookupA_removeList {α β : Type} [DecidableEq α]
    (ks : List α) (m : List (α × β)) (k : α) :
    lookupA (removeList ks m) k = if k ∈ ks then none else lookupA m k := by
  induction ks generalizing m with
  | nil => simp [removeList]
  | cons k₀ rest ih =>
      unfold removeList
      rw [List.foldl_cons]
      have ih' := ih (removeA m k₀)
      unfold removeList at ih'
      rw [ih']
      by_cases hk : k = k₀
      · subst hk
        by_cases hmem : k ∈ rest
        · simp [hmem]
        · simp [hmem, lookupA_removeA_self]
      · by_cases hmem : k ∈ rest
        · rw [if_pos hmem, if_pos (List.mem_cons_of_mem k₀ hmem)]
        · have hmem' : k ∉ k₀ :: rest := by
            simp [List.mem_cons, hk, hmem]
          rw [if_neg hmem, if_neg hmem',
            lookupA_removeA_ne m k₀ k (fun h => hk h.symm)]

theorem nodupKeysA_removeList {α β : Type} [DecidableEq α]
    (ks : List α) (m : List (α × β)) (h : NodupKeysA m) :
    NodupKeysA (removeList ks m) := by
  induction ks generalizing m with
  | nil => exact h
  | cons k₀ rest ih =>
      unfold removeList
      rw [List.foldl_cons]
      exact ih (removeA m k₀) (nodupKeysA_removeA m k₀ h)

theorem pushKvsSets_go (localKVS : KVSMap) (context : List (String × JValue))
    (n : Nat) (tr : List RemoteCall) (m : KVSMap) :
    localKVS.foldl (pushKvsStep context) (n, tr, m) =
      (n + (renderedKVS localKVS context).length,
        tr ++ (renderedKVS localKVS context).map
          (fun kv => RemoteCall.setKVS kv.1 kv.2),
        applySets (renderedKVS localKVS context) m) := by
  induction localKVS generalizing n tr m with
  | nil => simp [renderedKVS, applySets]
  | cons kv rest ih =>
      rw [List.foldl_cons]
      rcases hr : RenderKVSValue kv.2 context with ⟨res, w⟩
      cases res with
      | error e =>
          have hstep : pushKvsStep context (n, tr, m) kv = (n, tr, m) := by
            unfold pushKvsStep
            rw [hr]
          have hrend : renderedKVS (kv :: rest) context = renderedKVS rest context := by
            unfold renderedKVS
            rw [List.filterMap_cons, hr]
          rw [hstep, hrend, ih]
      | ok r =>
          have hstep : pushKvsStep context (n, tr, m) kv =
              (n + 1, tr ++ [RemoteCall.setKVS kv.1 r], setA m kv.1 r) := by
            unfold pushKvsStep
            rw [hr]
          have hrend : renderedKVS (kv :: rest) context =
              (kv.1, r) :: renderedKVS rest context := by
            unfold renderedKVS
            rw [List.filterMap_cons, hr]
          rw [hstep, hrend, ih]
          have hsets : applySets ((kv.1, r) :: renderedKVS rest context) m =
              applySets (renderedKVS rest context) (setA m kv.1 r) := by
            unfold applySets
            rw [List.foldl_cons]
          rw [hsets]
          have hn : n + 1 + (renderedKVS rest context).length =
              n + ((renderedKVS rest context).length + 1) := by omega
          simp [hn]

theorem pushKvsDeletes_go (localKVS deviceKVS : KVSMap)
    (tr : List RemoteCall) (m : KVSMap) :
    deviceKVS.foldl
      (fun (acc : List RemoteCall × KVSMap) kv =>
        if containsKeyA localKVS kv.1 then acc
        else (acc.1 ++ [RemoteCall.deleteKVS kv.1], removeA acc.2 kv.1))
      (tr, m) =
      (tr ++ (kvsDeleteKeys localKVS deviceKVS).map RemoteCall.deleteKVS,
        removeList (kvsDeleteKeys localKVS deviceKVS) m) := by
  induction deviceKVS generalizing tr m with
  | nil => simp [kvsDeleteKeys, keysA, removeList]
  | cons kv rest ih =>
      rw [List.foldl_cons]
      by_cases hc : containsKeyA localKVS kv.1 = true
      · have hkeys : kvsDeleteKeys localKVS (kv :: rest) =
            kvsDeleteKeys localKVS rest := by
          unfold kvsDeleteKeys keysA
          rw [List.map_cons, List.filter_cons]
          simp [hc]
        rw [if_pos hc, hkeys, ih]
      · have hkeys : kvsDeleteKeys localKVS (kv :: rest) =
            kv.1 :: kvsDeleteKeys localKVS rest := by
          unfold kvsDeleteKeys keysA
          rw [List.map_cons, List.filter_cons]
          simp [hc]
        rw [if_neg hc, hkeys, ih]
        have hrem : removeList (kv.1 :: kvsDeleteKeys localKVS rest) m =
            removeList (kvsDeleteKeys localKVS rest) (removeA m kv.1) := by
          unfold removeList
          rw [List.foldl_cons]
        rw [hrem]
        simp

/-- Closed form of the KVS phase for a nonempty local KVS. -/
theorem pushKvsPhase_eq (localKVS : KVSMap) (context : List (String × JValue))
    (kvs : KVSMap) (hne : localKVS.isEmpty = false) :
    pushKvsPhase localKVS context kvs =
      ((renderedKVS localKVS context).length,
        (renderedKVS localKVS context).map (fun kv => RemoteCall.setKVS kv.1 kv.2) ++
          (kvsDeleteKeys localKVS kvs).map RemoteCall.deleteKVS,
        removeList (kvsDeleteKeys localKVS kvs)
          (applySets (renderedKVS localKVS context) kvs)) := by
  unfold pushKvsPhase
  rw [hne]
  simp only [Bool.false_eq_true, if_false]
  rw [pushKvsSets_go localKVS context 0 [] kvs]
  rw [pushKvsDeletes_go localKVS kvs []]
  simp

theorem keysA_renderedKVS_sublist (localKVS : KVSMap) (context : List (String × JValue)) :
    (keysA (renderedKVS localKVS context)).Sublist (keysA localKVS) := by
  induction localKVS with
  | nil => simp [renderedKVS, keysA]
  | cons kv rest ih =>
      unfold renderedKVS keysA
      rw [List.filterMap_cons]
      rcases hr : RenderKVSValue kv.2 context with ⟨res, w⟩
      cases res with
      | error e =>
          rw [List.map_cons]
          exact List.Sublist.cons kv.1 (by simpa [renderedKVS, keysA] using ih)
      | ok r =>
          rw [List.map_cons, List.map_cons]
          exact List.Sublist.cons₂ kv.1 (by simpa [renderedKVS, keysA] using ih)

theorem nodupKeysA_renderedKVS (localKVS : KVSMap) (context : List (String × JValue))
    (h : NodupKeysA localKVS) : NodupKeysA (renderedKVS localKVS context) :=
  List.Nodup.sublist (keysA_renderedKVS_sublist localKVS context) h

theorem mem_keysA_of_mem_rendered (localKVS : KVSMap) (context : List (String × JValue))
    (k : String) (h : k ∈ keysA (renderedKVS localKVS context)) : k ∈ keysA localKVS :=
  (keysA_renderedKVS_sublist localKVS context).mem h

/-- Every key surviving the KVS phase is a local key. -/
theorem pushKvs_final_keys (localKVS : KVSMap) (context : List (String × JValue))
    (kvs : KVSMap) (k : String)
    (h : containsKeyA
      (removeList (kvsDeleteKeys localKVS kvs)
        (applySets (renderedKVS localKVS context) kvs)) k = true) :
    containsKeyA localKVS k = true := by
  by_contra hk
  have hk' : containsKeyA localKVS k = false := by
    simpa using hk
  have hsome : (lookupA
      (removeList (kvsDeleteKeys localKVS kvs)
        (applySets (renderedKVS localKVS context) kvs)) k).isSome = true := by
    rw [lookupA_isSome_iff_containsKeyA]
    exact h
  rw [lookupA_removeList] at hsome
  by_cases hmem : k ∈ kvsDeleteKeys localKVS kvs
  · rw [if_pos hmem] at hsome
    simp at hsome
  · rw [if_neg hmem] at hsome
    -- k survives the sets, so it is a rendered key or a device key
    have hcontains : containsKeyA (applySets (renderedKVS localKVS context) kvs) k = true := by
      rw [← lookupA_isSome_iff_containsKeyA]
      exact hsome
    have hkeys : k ∈ keysA (applySets (renderedKVS localKVS context) kvs) :=
      (containsKeyA_iff_mem_keysA _ k).mp hcontains
    have hsplit := mem_keysA_applySets _ _ _ hkeys
    rcases hsplit with hkvs | hrend
    · -- device key not deleted means it is local, contradiction
      have : k ∈ kvsDeleteKeys localKVS kvs := by
        unfold kvsDeleteKeys
        rw [List.mem_filter]
        exact ⟨hkvs, by simpa using hk'⟩
      exact hmem this
    · have : k ∈ keysA localKVS := mem_keysA_of_mem_rendered localKVS context k hrend
      have := (containsKeyA_iff_mem_keysA localKVS k).mpr this
      rw [hk'] at this
      simp at this
/-- Pushing the KVS phase twice from the same local state yields the same
device KVS as pushing it once. -/
theorem pushKvsPhase_state_idem (localKVS : KVSMap) (context : List (String × JValue))
    (kvs : KVSMap) (hndl : NodupKeysA localKVS) (hndk : NodupKeysA kvs) :
    (pushKvsPhase localKVS context (pushKvsPhase localKVS context kvs).2.2).2.2 =
      (pushKvsPhase localKVS context kvs).2.2 := by
  by_cases hne : localKVS.isEmpty = true
  · simp [pushKvsPhase, hne]
  · have hne' : localKVS.isEmpty = false := by
      simpa using hne
    rw [pushKvsPhase_eq localKVS context kvs hne']
    simp only
    rw [pushKvsPhase_eq localKVS context _ hne']
    simp only
    have hnd1 : NodupKeysA
        (removeList (kvsDeleteKeys localKVS kvs)
          (applySets (renderedKVS localKVS context) kvs)) :=
      nodupKeysA_removeList _ _ (nodupKeysA_applySets _ _ hndk)
    have hdel2 : kvsDeleteKeys localKVS
        (removeList (kvsDeleteKeys localKVS kvs)
          (applySets (renderedKVS localKVS context) kvs)) = [] := by
      unfold kvsDeleteKeys
      apply List.filter_eq_nil_iff.mpr
      intro k hk
      have hck : containsKeyA
          (removeList (kvsDeleteKeys localKVS kvs)
            (applySets (renderedKVS localKVS context) kvs)) k = true :=
        (containsKeyA_iff_mem_keysA _ k).mpr hk
      have hcl : containsKeyA localKVS k = true :=
        pushKvs_final_keys localKVS context kvs k hck
      simp [hcl]
    rw [hdel2]
    have hstable : applySets (renderedKVS localKVS context)
        (removeList (kvsDeleteKeys localKVS kvs)
          (applySets (renderedKVS localKVS context) kvs)) =
        removeList (kvsDeleteKeys localKVS kvs)
          (applySets (renderedKVS localKVS context) kvs) := by
      apply applySets_stable _ _ hnd1
      intro kv hkv
      have hndR : NodupKeysA (renderedKVS localKVS context) :=
        nodupKeysA_renderedKVS localKVS context hndl
      have hkv' : (kv.1, kv.2) ∈ renderedKVS localKVS context := by
        simpa using hkv
      have hlookR : lookupA (renderedKVS localKVS context) kv.1 = some kv.2 :=
        lookupA_of_mem_nodup _ kv.1 kv.2 hkv' hndR
      have hkeyR : kv.1 ∈ keysA (renderedKVS localKVS context) :=
        List.mem_map.mpr ⟨kv, hkv, rfl⟩
      have hkeyL : kv.1 ∈ keysA localKVS :=
        mem_keysA_of_mem_rendered localKVS context kv.1 hkeyR
      have hclocal : containsKeyA localKVS kv.1 = true :=
        (containsKeyA_iff_mem_keysA localKVS kv.1).mpr hkeyL
      have hnotdel : kv.1 ∉ kvsDeleteKeys localKVS kvs := by
        unfold kvsDeleteKeys
        rw [List.mem_filter]
        intro hmem
        have := hmem.2
        simp [hclocal] at this
      rw [lookupA_removeList, if_neg hnotdel]
      rw [lookupA_applySets _ _ (nodupKeysA_renderedKVS localKVS context hndl) kv.1]
      rw [hlookR]
    rw [hstable]
    simp [removeList]
/-! ## Keyed record updates -/

/-- Map a function over the records with the given key. -/
def mapByKey {α : Type} (getId : α → Nat) (l : List α) (i : Nat) (f : α → α) : List α :=
  l.map (fun r => if getId r = i then f r else r)

theorem ids_mapByKey {α : Type} (getId : α → Nat) (l : List α) (i : Nat) (f : α → α)
    (hf : ∀ r, getId r = i → getId (f r) = i) :
    (mapByKey getId l i f).map getId = l.map getId := by
  unfold mapByKey
  rw [List.map_map]
  apply List.map_congr_left
  intro r _
  by_cases h : getId r = i
  · simp only [Function.comp, if_pos h]
    rw [hf r h, h]
  · simp [Function.comp, h]

theorem findByKey_mapByKey_self {α : Type} (getId : α → Nat) (l : List α) (i : Nat)
    (f : α → α) (hf : ∀ r, getId r = i → getId (f r) = i) :
    findByKey getId (mapByKey getId l i f) i = Option.map f (findByKey getId l i) := by
  induction l with
  | nil => rfl
  | cons r t ih =>
      unfold mapByKey
      rw [List.map_cons]
      by_cases h : getId r = i
      · rw [if_pos h, findByKey_cons, findByKey_cons, if_pos h, if_pos (hf r h)]
        rfl
      · rw [if_neg h, findByKey_cons, findByKey_cons, if_neg h, if_neg h]
        exact ih

theorem findByKey_mapByKey_ne {α : Type} (getId : α → Nat) (l : List α) (i k : Nat)
    (f : α → α) (hf : ∀ r, getId r = i → getId (f r) = i) (hk : k ≠ i) :
    findByKey getId (mapByKey getId l i f) k = findByKey getId l k := by
  induction l with
  | nil => rfl
  | cons r t ih =>
      unfold mapByKey
      rw [List.map_cons]
      by_cases h : getId r = i
      · have hfr : ¬ getId (f r) = k := by
          rw [hf r h]
          exact fun hh => hk hh.symm
        have hrk : ¬ getId r = k := by
          rw [h]
          exact fun hh => hk hh.symm
        rw [if_pos h, findByKey_cons, findByKey_cons, if_neg hfr, if_neg hrk]
        exact ih
      · rw [if_neg h, findByKey_cons, findByKey_cons]
        by_cases hrk : getId r = k
        · rw [if_pos hrk, if_pos hrk]
        · rw [if_neg hrk, if_neg hrk]
          exact ih

theorem mapByKey_stable {α : Type} (getId : α → Nat) (m : List α) (i : Nat)
    (f : α → α) (hnd : (m.map getId).Nodup) (x : α)
    (hfind : findByKey getId m i = some x) (hfx : f x = x) :
    mapByKey getId m i f = m := by
  unfold mapByKey
  have : m.map (fun r => if getId r = i then f r else r) = m.map id := by
    apply List.map_congr_left
    intro r hr
    by_cases h : getId r = i
    · have hfr : findByKey getId m (getId r) = some r :=
        findByKey_of_mem_nodup getId m r hr hnd
      rw [h, hfind] at hfr
      have hrx : x = r := by
        injection hfr
      subst hrx
      rw [if_pos h, hfx, id_eq]
    · rw [if_neg h, id_eq]
  rw [this, List.map_id]

/-- The update loop of the reconciler applied to every local record. -/
def updateAll {α : Type} (getId : α → Nat) (locals : List α) (cur : List α) : List α :=
  locals.foldl (fun cur ls => mapByKey getId cur (getId ls) (fun _ => ls)) cur

theorem ids_updateAll {α : Type} (getId : α → Nat) (locals cur : List α) :
    (updateAll getId locals cur).map getId = cur.map getId := by
  induction locals generalizing cur with
  | nil => rfl
  | cons ls t ih =>
      unfold updateAll
      rw [List.foldl_cons]
      have := ih (mapByKey getId cur (getId ls) (fun _ => ls))
      unfold updateAll at this
      rw [this, ids_mapByKey getId cur (getId ls) _ (fun r _ => rfl)]

theorem findByKey_updateAll {α : Type} (getId : α → Nat) (locals cur : List α)
    (hnd : (locals.map getId).Nodup) (k : Nat) :
    findByKey getId (updateAll getId locals cur) k =
      match findByKey getId locals k with
      | some ls => if cur.any (fun r => getId r = k) then some ls else none
      | none => findByKey getId cur k := by
  induction locals generalizing cur with
  | nil => simp [updateAll, findByKey]
  | cons ls t ih =>
      have hnd' : (t.map getId).Nodup := (List.nodup_cons.mp (by simpa using hnd)).2
      have hnotin : getId ls ∉ t.map getId := (List.nodup_cons.mp (by simpa using hnd)).1
      unfold updateAll
      rw [List.foldl_cons]
      have ih' := ih (mapByKey getId cur (getId ls) (fun _ => ls)) hnd'
      unfold updateAll at ih'
      rw [ih', findByKey_cons]
      by_cases hk : getId ls = k
      · subst hk
        rw [if_pos rfl]
        have ht : findByKey getId t (getId ls) = none := by
          apply findByKey_eq_none
          intro z hz hzk
          exact hnotin (List.mem_map.mpr ⟨z, hz, hzk⟩)
        have hself := findByKey_mapByKey_self getId cur (getId ls)
          (fun _ => ls) (fun r _ => rfl)
        cases hfind : findByKey getId cur (getId ls) with
        | none =>
            have hany : cur.any (fun r => getId r = getId ls) = false := by
              rw [← findByKey_isSome_iff_any, hfind]
              rfl
            simp [ht, hself, hfind, hany]
        | some y =>
            have hany : cur.any (fun r => getId r = getId ls) = true := by
              rw [← findByKey_isSome_iff_any, hfind]
              rfl
            simp [ht, hself, hfind, hany]
      · rw [if_neg hk]
        have hfind : findByKey getId (mapByKey getId cur (getId ls) (fun _ => ls)) k =
            findByKey getId cur k :=
          findByKey_mapByKey_ne getId cur (getId ls) k _ (fun r _ => rfl)
            (fun hh => hk hh.symm)
        have hany : ((mapByKey getId cur (getId ls) (fun _ => ls)).any
            (fun r => getId r = k)) = cur.any (fun r => getId r = k) := by
          rw [← findByKey_isSome_iff_any, ← findByKey_isSome_iff_any, hfind]
        cases hft : findByKey getId t k with
        | some y => simp [hft, hany]
        | none => simp [hft, hfind]
/-! ## Keyed record deletions -/

/-- Apply a sequence of remote deletions by id. -/
def removeByIds {α : Type} (getId : α → Nat) (ks : List Nat) (m : List α) : List α :=
  ks.foldl (fun s i => s.filter (fun x => ¬ getId x = i)) m

/-- The ids deleted by the reconciler: snapshot records with no matching
local id, in snapshot order. -/
def deadIds {α : Type} (getId : α → Nat) (locals snapshot : List α) : List Nat :=
  (snapshot.filter (fun r => ¬ locals.any (fun ls => getId ls = getId r))).map getId

theorem findByKey_filterNe {α : Type} (getId : α → Nat) (m : List α) (i k : Nat) :
    findByKey getId (m.filter (fun x => ¬ getId x = i)) k =
      if k = i then none else findByKey getId m k := by
  induction m with
  | nil => simp [findByKey]
  | cons r t ih =>
      rw [List.filter_cons]
      by_cases hri : getId r = i
      · rw [if_neg (by simp [hri])]
        rw [ih]
        by_cases hk : k = i
        · rw [if_pos hk, if_pos hk]
        · rw [if_neg hk, if_neg hk, findByKey_cons,
            if_neg (by rw [hri]; exact fun hh => hk hh.symm)]
      · rw [if_pos (by simp [hri])]
        rw [findByKey_cons, findByKey_cons]
        by_cases hrk : getId r = k
        · have hk : ¬ k = i := by
            rw [← hrk]
            exact fun hh => hri hh
          rw [if_pos hrk, if_neg hk, if_pos hrk]
        · rw [if_neg hrk, ih]
          by_cases hk : k = i
          · rw [if_pos hk, if_pos hk]
          · rw [if_neg hk, if_neg hk, if_neg hrk]

theorem findByKey_removeByIds {α : Type} (getId : α → Nat) (ks : List Nat)
    (m : List α) (k : Nat) :
    findByKey getId (removeByIds getId ks m) k =
      if k ∈ ks then none else findByKey getId m k := by
  induction ks generalizing m with
  | nil => simp [removeByIds]
  | cons i rest ih =>
      unfold removeByIds
      rw [List.foldl_cons]
      have ih' := ih (m.filter (fun x => ¬ getId x = i))
      unfold removeByIds at ih'
      rw [ih']
      by_cases hk : k = i
      · subst hk
        by_cases hmem : k ∈ rest
        · rw [if_pos hmem, if_pos (List.mem_cons_self k rest)]
        · rw [if_neg hmem, if_pos (List.mem_cons_self k rest),
            findByKey_filterNe, if_pos rfl]
      · by_cases hmem : k ∈ rest
        · rw [if_pos hmem, if_pos (List.mem_cons_of_mem i hmem)]
        · have hmem' : k ∉ i :: rest := by
            simp [List.mem_cons, hk, hmem]
          rw [if_neg hmem, if_neg hmem', findByKey_filterNe, if_neg hk]

theorem ids_removeByIds_sublist {α : Type} (getId : α → Nat) (ks : List Nat)
    (m : List α) :
    ((removeByIds getId ks m).map getId).Sublist (m.map getId) := by
  induction ks generalizing m with
  | nil => exact List.Sublist.refl _
  | cons i rest ih =>
      unfold removeByIds
      rw [List.foldl_cons]
      have h₁ := ih (m.filter (fun x => ¬ getId x = i))
      unfold removeByIds at h₁
      exact h₁.trans (List.Sublist.map getId (List.filter_sublist m))

theorem mem_removeByIds {α : Type} (getId : α → Nat) (ks : List Nat)
    (m : List α) (x : α) (h : x ∈ removeByIds getId ks m) :
    x ∈ m ∧ getId x ∉ ks := by
  induction ks generalizing m with
  | nil => exact ⟨h, by simp⟩
  | cons i rest ih =>
      unfold removeByIds at h
      rw [List.foldl_cons] at h
      have h' := ih (m.filter (fun x => ¬ getId x = i)) (by simpa [removeByIds] using h)
      have hmem := List.mem_filter.mp h'.1
      refine ⟨hmem.1, ?_⟩
      intro hk
      rcases List.mem_cons.mp hk with hk | hk
      · have := hmem.2
        simp [hk] at this
      · exact h'.2 hk

theorem deleteLoop_go {α : Type} (getId : α → Nat) (locals : List α)
    (mkDelete : Nat → RemoteCall) (proc : List α)
    (tr : List RemoteCall) (st : List α) :
    proc.foldl
      (fun (acc : List RemoteCall × List α) r =>
        if locals.any (fun ls => getId ls = getId r) then acc
        else (acc.1 ++ [mkDelete (getId r)], acc.2.filter (fun x => ¬ getId x = getId r)))
      (tr, st) =
      (tr ++ (deadIds getId locals proc).map mkDelete,
        removeByIds getId (deadIds getId locals proc) st) := by
  induction proc generalizing tr st with
  | nil => simp [deadIds, removeByIds]
  | cons r t ih =>
      rw [List.foldl_cons]
      by_cases hc : locals.any (fun ls => getId ls = getId r) = true
      · have hdead : deadIds getId locals (r :: t) = deadIds getId locals t := by
          unfold deadIds
          rw [List.filter_cons]
          simp [hc]
        rw [if_pos hc, hdead, ih]
      · have hdead : deadIds getId locals (r :: t) =
            getId r :: deadIds getId locals t := by
          unfold deadIds
          rw [List.filter_cons]
          simp [hc]
        rw [if_neg hc, hdead, ih]
        have hrem : removeByIds getId (getId r :: deadIds getId locals t) st =
            removeByIds getId (deadIds getId locals t)
              (st.filter (fun x => ¬ getId x = getId r)) := by
          unfold removeByIds
          rw [List.foldl_cons]
        rw [hrem]
        simp

theorem reconcileStep1_of_allPresent {α : Type} (getId : α → Nat) (withId : α → Nat → α)
    (mkCreate mkUpdate : α → RemoteCall) (locals snapshot : List α)
    (H : ∀ ls ∈ locals, snapshot.any (fun r => getId r = getId ls) = true)
    (n : Nat) (tr : List RemoteCall) (cur : List α) (nx : Nat) :
    locals.foldl
      (fun (acc : Nat × List RemoteCall × List α × Nat) ls =>
        if snapshot.any (fun r => getId r = getId ls) then
          (acc.1 + 1, acc.2.1 ++ [mkUpdate ls],
            acc.2.2.1.map (fun r => if getId r = getId ls then ls else r), acc.2.2.2)
        else
          (acc.1 + 1, acc.2.1 ++ [mkCreate ls],
            acc.2.2.1 ++ [withId ls acc.2.2.2], acc.2.2.2 + 1))
      (n, tr, cur, nx) =
      (n + locals.length, tr ++ locals.map mkUpdate, updateAll getId locals cur, nx) := by
  induction locals generalizing n tr cur with
  | nil => simp [updateAll]
  | cons ls t ih =>
      rw [List.foldl_cons]
      have hcond := H ls (List.mem_cons_self ls t)
      rw [if_pos hcond]
      have H' : ∀ ls' ∈ t, snapshot.any (fun r => getId r = getId ls') = true :=
        fun ls' h => H ls' (List.mem_cons_of_mem ls h)
      have ih' := ih H' (n + 1) (tr ++ [mkUpdate ls])
        (cur.map (fun r => if getId r = getId ls then ls else r))
      rw [ih']
      have hupd : updateAll getId (ls :: t) cur =
          updateAll getId t (cur.map (fun r => if getId r = getId ls then ls else r)) := by
        unfold updateAll
        rw [List.foldl_cons]
        rfl
      rw [hupd]
      have hn : n + 1 + t.length = n + (t.length + 1) := by omega
      simp [hn]
theorem reconcileStep1_trace {α : Type} (getId : α → Nat) (withId : α → Nat → α)
    (mkCreate mkUpdate : α → RemoteCall) (locals snapshot : List α)
    (n : Nat) (tr : List RemoteCall) (cur : List α) (nx : Nat) :
    (locals.foldl
      (fun (acc : Nat × List RemoteCall × List α × Nat) ls =>
        if snapshot.any (fun r => getId r = getId ls) then
          (acc.1 + 1, acc.2.1 ++ [mkUpdate ls],
            acc.2.2.1.map (fun r => if getId r = getId ls then ls else r), acc.2.2.2)
        else
          (acc.1 + 1, acc.2.1 ++ [mkCreate ls],
            acc.2.2.1 ++ [withId ls acc.2.2.2], acc.2.2.2 + 1))
      (n, tr, cur, nx)).2.1 =
      tr ++ locals.map (fun ls =>
        if snapshot.any (fun r => getId r = getId ls) then mkUpdate ls else mkCreate ls) := by
  induction locals generalizing n tr cur nx with
  | nil => simp
  | cons ls t ih =>
      rw [List.foldl_cons]
      by_cases hcond : snapshot.any (fun r => getId r = getId ls) = true
      · rw [if_pos hcond, ih, List.map_cons, if_pos hcond]
        simp
      · rw [if_neg hcond, ih, List.map_cons, if_neg hcond]
        simp

theorem reconcileStep1_count {α : Type} (getId : α → Nat) (withId : α → Nat → α)
    (mkCreate mkUpdate : α → RemoteCall) (locals snapshot : List α)
    (n : Nat) (tr : List RemoteCall) (cur : List α) (nx : Nat) :
    (locals.foldl
      (fun (acc : Nat × List RemoteCall × List α × Nat) ls =>
        if snapshot.any (fun r => getId r = getId ls) then
          (acc.1 + 1, acc.2.1 ++ [mkUpdate ls],
            acc.2.2.1.map (fun r => if getId r = getId ls then ls else r), acc.2.2.2)
        else
          (acc.1 + 1, acc.2.1 ++ [mkCreate ls],
            acc.2.2.1 ++ [withId ls acc.2.2.2], acc.2.2.2 + 1))
      (n, tr, cur, nx)).1 = n + locals.length := by
  induction locals generalizing n tr cur nx with
  | nil => simp
  | cons ls t ih =>
      rw [List.foldl_cons]
      by_cases hcond : snapshot.any (fun r => getId r = getId ls) = true
      · rw [if_pos hcond, ih]
        simp only [List.length_cons]
        omega
      · rw [if_neg hcond, ih]
        simp only [List.length_cons]
        omega

/-- Trace of the reconcile phase: one update or create per local record in
order, followed by one delete per remote-only record in snapshot order. -/
theorem reconcilePhase_trace {α : Type} (getId : α → Nat) (withId : α → Nat → α)
    (mkCreate mkUpdate : α → RemoteCall) (mkDelete : Nat → RemoteCall)
    (locals snapshot : List α) (next : Nat) :
    (reconcilePhase getId withId mkCreate mkUpdate mkDelete locals snapshot next).2.1 =
      locals.map (fun ls =>
        if snapshot.any (fun r => getId r = getId ls) then mkUpdate ls else mkCreate ls) ++
      (deadIds getId locals snapshot).map mkDelete := by
  simp only [reconcilePhase]
  rw [deleteLoop_go getId locals mkDelete snapshot]
  rw [reconcileStep1_trace getId withId mkCreate mkUpdate locals snapshot 0 [] snapshot next]
  simp

theorem reconcilePhase_count {α : Type} (getId : α → Nat) (withId : α → Nat → α)
    (mkCreate mkUpdate : α → RemoteCall) (mkDelete : Nat → RemoteCall)
    (locals snapshot : List α) (next : Nat) :
    (reconcilePhase getId withId mkCreate mkUpdate mkDelete locals snapshot next).1 =
      locals.length := by
  simp only [reconcilePhase]
  rw [reconcileStep1_count getId withId mkCreate mkUpdate locals snapshot 0 [] snapshot next]
  omega

/-- Closed form of the reconcile phase when every local id already exists
remotely: all locals updated in place, remote-only records deleted, no
creations, id counter unchanged. -/
theorem reconcilePhase_of_allPresent {α : Type} (getId : α → Nat) (withId : α → Nat → α)
    (mkCreate mkUpdate : α → RemoteCall) (mkDelete : Nat → RemoteCall)
    (locals snapshot : List α) (next : Nat)
    (H : ∀ ls ∈ locals, snapshot.any (fun r => getId r = getId ls) = true) :
    reconcilePhase getId withId mkCreate mkUpdate mkDelete locals snapshot next =
      (locals.length,
        locals.map mkUpdate ++ (deadIds getId locals snapshot).map mkDelete,
        removeByIds getId (deadIds getId locals snapshot) (updateAll getId locals snapshot),
        next) := by
  simp only [reconcilePhase]
  rw [reconcileStep1_of_allPresent getId withId mkCreate mkUpdate locals snapshot H 0 []
    snapshot next]
  rw [deleteLoop_go getId locals mkDelete snapshot]
  simp

/-- The ids of the state left by a reconcile run with no creations form a
subsequence of the snapshot ids. -/
theorem reconcile_final_ids_sublist {α : Type} (getId : α → Nat)
    (locals snapshot : List α) :
    ((removeByIds getId (deadIds getId locals snapshot)
        (updateAll getId locals snapshot)).map getId).Sublist
      (snapshot.map getId) := by
  have h₁ := ids_removeByIds_sublist getId (deadIds getId locals snapshot)
    (updateAll getId locals snapshot)
  rw [ids_updateAll getId locals snapshot] at h₁
  exact h₁

/-- In the state left by a reconcile run with no creations, every local
record is found unchanged at its id. -/
theorem reconcile_final_find {α : Type} (getId : α → Nat)
    (locals snapshot : List α) (ls : α)
    (hmem : ls ∈ locals)
    (hlocal : (locals.map getId).Nodup)
    (H : ∀ ls ∈ locals, snapshot.any (fun r => getId r = getId ls) = true) :
    findByKey getId
      (removeByIds getId (deadIds getId locals snapshot)
        (updateAll getId locals snapshot)) (getId ls) = some ls := by
  have hnotdead : getId ls ∉ deadIds getId locals snapshot := by
    unfold deadIds
    intro hk
    rcases List.mem_map.mp hk with ⟨r, hr, hid⟩
    have hrf := List.mem_filter.mp hr
    have hany : locals.any (fun ls' => getId ls' = getId r) = true := by
      rw [List.any_eq_true]
      exact ⟨ls, hmem, by simpa using hid.symm⟩
    have := hrf.2
    simp [hany] at this
  rw [findByKey_removeByIds, if_neg hnotdead]
  rw [findByKey_updateAll getId locals snapshot hlocal (getId ls)]
  have hfound := findByKey_of_mem_nodup getId locals ls hmem hlocal
  simp only [hfound]
  rw [if_pos (H ls hmem)]

/-- When every record of `m` has a matching local id, the reconciler
deletes nothing from it. -/
theorem deadIds_eq_nil {α : Type} (getId : α → Nat) (locals m : List α)
    (h : ∀ x ∈ m, locals.any (fun ls => getId ls = getId x) = true) :
    deadIds getId locals m = [] := by
  unfold deadIds
  have hfilter : m.filter (fun r => ¬ locals.any (fun ls => getId ls = getId r)) = [] := by
    apply List.filter_eq_nil_iff.mpr
    intro x hx
    simp [h x hx]
  rw [hfilter]
  rfl

/-- Running the reconcile phase twice with the same local set yields the
same remote state and id counter as running it once, provided every local
id already exists remotely and ids are duplicate-free on both sides. -/
theorem reconcilePhase_state_idem {α : Type} (getId : α → Nat) (withId : α → Nat → α)
    (mkCreate mkUpdate : α → RemoteCall) (mkDelete : Nat → RemoteCall)
    (locals snapshot : List α) (next : Nat)
    (hlocal : (locals.map getId).Nodup)
    (hsnap : (snapshot.map getId).Nodup)
    (H : ∀ ls ∈ locals, snapshot.any (fun r => getId r = getId ls) = true) :
    (reconcilePhase getId withId mkCreate mkUpdate mkDelete locals
      (reconcilePhase getId withId mkCreate mkUpdate mkDelete locals snapshot next).2.2.1
      (reconcilePhase getId withId mkCreate mkUpdate mkDelete locals snapshot next).2.2.2).2.2 =
    (reconcilePhase getId withId mkCreate mkUpdate mkDelete locals snapshot next).2.2 := by
  rw [reconcilePhase_of_allPresent getId withId mkCreate mkUpdate mkDelete locals snapshot
    next H]
  simp only
  have hndfinal : ((removeByIds getId (deadIds getId locals snapshot)
      (updateAll getId locals snapshot)).map getId).Nodup :=
    List.Nodup.sublist (reconcile_final_ids_sublist getId locals snapshot) hsnap
  have hfind : ∀ ls ∈ locals,
      findByKey getId
        (removeByIds getId (deadIds getId locals snapshot)
          (updateAll getId locals snapshot)) (getId ls) = some ls :=
    fun ls h => reconcile_final_find getId locals snapshot ls h hlocal H
  have H₂ : ∀ ls ∈ locals,
      (removeByIds getId (deadIds getId locals snapshot)
        (updateAll getId locals snapshot)).any (fun r => getId r = getId ls) = true := by
    intro ls h
    rw [← findByKey_isSome_iff_any, hfind ls h]
    rfl
  rw [reconcilePhase_of_allPresent getId withId mkCreate mkUpdate mkDelete locals _ next H₂]
  simp only
  have hdead₂ : deadIds getId locals
      (removeByIds getId (deadIds getId locals snapshot)
        (updateAll getId locals snapshot)) = [] := by
    apply deadIds_eq_nil
    intro x hx
    have hx' := mem_removeByIds getId _ _ x hx
    have hxid : getId x ∈ (updateAll getId locals snapshot).map getId :=
      List.mem_map.mpr ⟨x, hx'.1, rfl⟩
    rw [ids_updateAll getId locals snapshot] at hxid
    rcases List.mem_map.mp hxid with ⟨r, hr, hid⟩
    cases hval : locals.any (fun ls => getId ls = getId x) with
    | true => rfl
    | false =>
        exfalso
        have hrdead : getId x ∈ deadIds getId locals snapshot := by
          unfold deadIds
          apply List.mem_map.mpr
          refine ⟨r, ?_, hid⟩
          rw [List.mem_filter]
          refine ⟨hr, ?_⟩
          rw [hid]
          simp [hval]
        exact hx'.2 hrdead
  rw [hdead₂]
  have hstable : updateAll getId locals
      (removeByIds getId (deadIds getId locals snapshot)
        (updateAll getId locals snapshot)) =
      removeByIds getId (deadIds getId locals snapshot)
        (updateAll getId locals snapshot) := by
    unfold updateAll
    apply foldl_fixed
    intro ls hls
    exact mapByKey_stable getId _ (getId ls) (fun _ => ls) hndfinal ls (hfind ls hls) rfl
  rw [hstable]
  simp [removeByIds]
/-! ## Scripts phase characterization -/

/-- The remote script a successful push leaves for a local script file:
name and enable from the metadata, the uploaded code, and running exactly
when enabled. -/
def scriptEntryFor (meta : ScriptMetadata) (code : String) : RemoteScript :=
  ⟨meta.id, meta.name, meta.enable, meta.enable, code⟩

/-- The remote scripts a push drives the local script files to. -/
def scriptEntries (localScripts : List (ScriptMetadata × String)) : List RemoteScript :=
  localScripts.map (fun p => scriptEntryFor p.1 p.2)

theorem mapByKey_mapByKey {α : Type} (getId : α → Nat) (l : List α) (i : Nat)
    (f g : α → α) (hf : ∀ r, getId r = i → getId (f r) = i) :
    mapByKey getId (mapByKey getId l i f) i g = mapByKey getId l i (fun r => g (f r)) := by
  unfold mapByKey
  rw [List.map_map]
  apply List.map_congr_left
  intro r _
  by_cases h : getId r = i
  · simp [Function.comp, h, hf r h]
  · simp [Function.comp, h]

theorem mapByKey_congr {α : Type} (getId : α → Nat) (l : List α) (i : Nat)
    (f g : α → α) (h : ∀ r, getId r = i → f r = g r) :
    mapByKey getId l i f = mapByKey getId l i g := by
  unfold mapByKey
  apply List.map_congr_left
  intro r _
  by_cases hr : getId r = i
  · rw [if_pos hr, if_pos hr, h r hr]
  · rw [if_neg hr, if_neg hr]

theorem mapByKey_congr_entry {α : Type} (getId : α → Nat) (m : List α) (i : Nat)
    (f g : α → α) (hnd : (m.map getId).Nodup) (x : α)
    (hfind : findByKey getId m i = some x) (h : f x = g x) :
    mapByKey getId m i f = mapByKey getId m i g := by
  unfold mapByKey
  apply List.map_congr_left
  intro r hr
  by_cases hrk : getId r = i
  · have hfr : findByKey getId m (getId r) = some r :=
      findByKey_of_mem_nodup getId m r hr hnd
    rw [hrk, hfind] at hfr
    have hxr : x = r := by
      injection hfr
    subst hxr
    rw [if_pos hrk, if_pos hrk, h]
  · rw [if_neg hrk, if_neg hrk]

theorem setScriptRunning_eq (l : List RemoteScript) (i : Nat) (r : Bool) :
    setScriptRunning l i r =
      mapByKey RemoteScript.id l i (fun s => { s with running := r }) := rfl

theorem setScriptCode_eq (l : List RemoteScript) (i : Nat) (code : String) :
    setScriptCode l i code =
      mapByKey RemoteScript.id l i (fun s => { s with code := code }) := rfl

theorem setScriptNameEnable_eq (l : List RemoteScript) (i : Nat) (name : String)
    (enable : Bool) :
    setScriptNameEnable l i name enable =
      mapByKey RemoteScript.id l i
        (fun s => { s with name := name, enable := enable }) := rfl

/-- State effect of pushing one script whose id exists in the snapshot:
the remote record with that id becomes the normal-form entry, and the id
counter is unchanged. -/
theorem pushOneScript_state_of_found (snapshot cur : List RemoteScript)
    (meta : ScriptMetadata) (code : String) (next : Nat) (ex : RemoteScript)
    (hfind : snapshot.find? (fun s => s.id = meta.id) = some ex)
    (hcur : findByKey RemoteScript.id cur meta.id = some ex)
    (hnd : (cur.map RemoteScript.id).Nodup) :
    (pushOneScript snapshot meta code cur next).2 =
      (mapByKey RemoteScript.id cur meta.id (fun _ => scriptEntryFor meta code), next) := by
  have hexid : ex.id = meta.id := by
    have := List.find?_some hfind
    simpa using this
  simp only [pushOneScript, hfind]
  by_cases hrun : ex.running = true
  · simp only [if_pos hrun]
    by_cases hen : meta.enable = true
    · simp only [if_pos hen]
      simp only [setScriptRunning_eq, setScriptCode_eq, setScriptNameEnable_eq]
      rw [mapByKey_mapByKey RemoteScript.id cur meta.id _ _ ?hf1]
      case hf1 =>
        intro r h
        exact h
      rw [mapByKey_mapByKey RemoteScript.id cur meta.id _ _ ?hf2]
      case hf2 =>
        intro r h
        exact h
      rw [mapByKey_mapByKey RemoteScript.id cur meta.id _ _ ?hf3]
      case hf3 =>
        intro r h
        exact h
      rw [mapByKey_congr RemoteScript.id cur meta.id _
        (fun _ => scriptEntryFor meta code) ?hcong]
      case hcong =>
        intro r hr
        rcases r with ⟨rid, rname, renable, rrunning, rcode⟩
        simp only [RemoteScript.id] at hr
        simp [scriptEntryFor, hr, hen]
    · simp only [if_neg hen]
      simp only [setScriptRunning_eq, setScriptCode_eq, setScriptNameEnable_eq]
      rw [mapByKey_mapByKey RemoteScript.id cur meta.id _ _ ?hg1]
      case hg1 =>
        intro r h
        exact h
      rw [mapByKey_mapByKey RemoteScript.id cur meta.id _ _ ?hg2]
      case hg2 =>
        intro r h
        exact h
      rw [mapByKey_congr RemoteScript.id cur meta.id _
        (fun _ => scriptEntryFor meta code) ?hcong2]
      case hcong2 =>
        intro r hr
        rcases r with ⟨rid, rname, renable, rrunning, rcode⟩
        simp only [RemoteScript.id] at hr
        have hen' : meta.enable = false := by
          simpa using hen
        simp [scriptEntryFor, hr, hen']
  · simp only [if_neg hrun]
    have hrun' : ex.running = false := by
      simpa using hrun
    by_cases hen : meta.enable = true
    · simp only [if_pos hen]
      simp only [setScriptCode_eq, setScriptNameEnable_eq, setScriptRunning_eq]
      rw [mapByKey_mapByKey RemoteScript.id cur meta.id _ _ ?hh1]
      case hh1 =>
        intro r h
        exact h
      rw [mapByKey_mapByKey RemoteScript.id cur meta.id _ _ ?hh2]
      case hh2 =>
        intro r h
        exact h
      rw [mapByKey_congr RemoteScript.id cur meta.id _
        (fun _ => scriptEntryFor meta code) ?hcong3]
      case hcong3 =>
        intro r hr
        rcases r with ⟨rid, rname, renable, rrunning, rcode⟩
        simp only [RemoteScript.id] at hr
        simp [scriptEntryFor, hr, hen]
    · simp only [if_neg hen]
      simp only [setScriptCode_eq, setScriptNameEnable_eq]
      rw [mapByKey_mapByKey RemoteScript.id cur meta.id _ _ ?hi1]
      case hi1 =>
        intro r h
        exact h
      rw [mapByKey_congr_entry RemoteScript.id cur meta.id _
        (fun _ => scriptEntryFor meta code) hnd ex hcur ?hentry]
      case hentry =>
        rcases ex with ⟨exid, exname, exenable, exrunning, excode⟩
        simp only [RemoteScript.id] at hexid
        simp only [RemoteScript.running] at hrun'
        have hen' : meta.enable = false := by
          simpa using hen
        simp [scriptEntryFor, hexid, hrun', hen']
theorem scriptEntryFor_id (meta : ScriptMetadata) (code : String) :
    (scriptEntryFor meta code).id = meta.id := rfl

theorem ids_scriptEntries (localScripts : List (ScriptMetadata × String)) :
    (scriptEntries localScripts).map RemoteScript.id =
      localScripts.map (fun p => p.1.id) := by
  unfold scriptEntries
  rw [List.map_map]
  rfl

theorem updateAll_find_self {α : Type} (getId : α → Nat) (entries cur : List α) (e : α)
    (hmem : e ∈ entries) (hnd : (entries.map getId).Nodup)
    (hany : cur.any (fun r => getId r = getId e) = true) :
    findByKey getId (updateAll getId entries cur) (getId e) = some e := by
  rw [findByKey_updateAll getId entries cur hnd]
  simp only [findByKey_of_mem_nodup getId entries e hmem hnd]
  rw [if_pos hany]

theorem pushScriptsLoop_state (scripts : List RemoteScript)
    (locals : List (ScriptMetadata × String)) (cur : List RemoteScript)
    (n : Nat) (tr : List RemoteCall) (next : Nat)
    (hlocal : (locals.map (fun p => p.1.id)).Nodup)
    (hndcur : (cur.map RemoteScript.id).Nodup)
    (hcurfind : ∀ p ∈ locals,
      findByKey RemoteScript.id cur p.1.id = findByKey RemoteScript.id scripts p.1.id)
    (H : ∀ p ∈ locals, scripts.any (fun s => s.id = p.1.id) = true) :
    (locals.foldl
      (fun acc entry =>
        let step := pushOneScript scripts entry.1 entry.2 acc.2.2.1 acc.2.2.2
        (acc.1 + 1, acc.2.1 ++ step.1, step.2.1, step.2.2))
      (n, tr, cur, next)).2.2 =
      (updateAll RemoteScript.id (scriptEntries locals) cur, next) := by
  induction locals generalizing cur n tr with
  | nil => simp [updateAll, scriptEntries]
  | cons p t ih =>
      have hnd' : (t.map (fun p => p.1.id)).Nodup :=
        (List.nodup_cons.mp (by simpa using hlocal)).2
      have hnotin : p.1.id ∉ t.map (fun p => p.1.id) :=
        (List.nodup_cons.mp (by simpa using hlocal)).1
      have hex : (findByKey RemoteScript.id scripts p.1.id).isSome = true := by
        rw [findByKey_isSome_iff_any]
        exact H p (List.mem_cons_self p t)
      cases hfindS : findByKey RemoteScript.id scripts p.1.id with
      | none =>
          rw [hfindS] at hex
          simp at hex
      | some ex =>
          have hcurp : findByKey RemoteScript.id cur p.1.id = some ex := by
            rw [hcurfind p (List.mem_cons_self p t), hfindS]
          rw [List.foldl_cons]
          simp only
          have hstep := pushOneScript_state_of_found scripts cur p.1 p.2 next ex
            hfindS hcurp hndcur
          have hstate : (pushOneScript scripts p.1 p.2 cur next).2.1 =
              mapByKey RemoteScript.id cur p.1.id
                (fun _ => scriptEntryFor p.1 p.2) := by
            rw [hstep]
          have hnext : (pushOneScript scripts p.1 p.2 cur next).2.2 = next := by
            rw [hstep]
          rw [hstate, hnext]
          have hidpres : (mapByKey RemoteScript.id cur p.1.id
              (fun _ => scriptEntryFor p.1 p.2)).map RemoteScript.id =
              cur.map RemoteScript.id :=
            ids_mapByKey RemoteScript.id cur p.1.id _ (fun r h => rfl)
          have hndcur' : ((mapByKey RemoteScript.id cur p.1.id
              (fun _ => scriptEntryFor p.1 p.2)).map RemoteScript.id).Nodup := by
            rw [hidpres]
            exact hndcur
          have hcurfind' : ∀ q ∈ t,
              findByKey RemoteScript.id
                (mapByKey RemoteScript.id cur p.1.id
                  (fun _ => scriptEntryFor p.1 p.2)) q.1.id =
              findByKey RemoteScript.id scripts q.1.id := by
            intro q hq
            have hne : q.1.id ≠ p.1.id := by
              intro h
              exact hnotin (List.mem_map.mpr ⟨q, hq, h⟩)
            rw [findByKey_mapByKey_ne RemoteScript.id cur p.1.id q.1.id _
              (fun r h => rfl) hne]
            exact hcurfind q (List.mem_cons_of_mem p hq)
          have H' : ∀ q ∈ t, scripts.any (fun s => s.id = q.1.id) = true :=
            fun q hq => H q (List.mem_cons_of_mem p hq)
          rw [ih _ (n + 1) _ hnd' hndcur' hcurfind' H']
          have hupd : updateAll RemoteScript.id (scriptEntries (p :: t)) cur =
              updateAll RemoteScript.id (scriptEntries t)
                (mapByKey RemoteScript.id cur p.1.id
                  (fun _ => scriptEntryFor p.1 p.2)) := by
            unfold scriptEntries updateAll
            rw [List.map_cons, List.foldl_cons]
            rfl
          rw [hupd]

theorem pushScriptsPhase_count (localScripts : List (ScriptMetadata × String))
    (scripts : List RemoteScript) (next : Nat) :
    (pushScriptsPhase localScripts scripts next).1 = localScripts.length := by
  unfold pushScriptsPhase
  suffices h : ∀ (cur : List RemoteScript) (n : Nat) (tr : List RemoteCall) (nx : Nat),
      (localScripts.foldl
        (fun acc entry =>
          let step := pushOneScript scripts entry.1 entry.2 acc.2.2.1 acc.2.2.2
          (acc.1 + 1, acc.2.1 ++ step.1, step.2.1, step.2.2))
        (n, tr, cur, nx)).1 = n + localScripts.length by
    rw [h scripts 0 [] next]
    omega
  induction localScripts with
  | nil =>
      intro cur n tr nx
      simp
  | cons p t ih =>
      intro cur n tr nx
      rw [List.foldl_cons]
      simp only
      rw [ih]
      simp only [List.length_cons]
      omega

/-- State effect of the scripts phase when every local script id exists in
the snapshot: each targeted remote script is driven to its normal form,
nothing is created, and the id counter is unchanged. -/
theorem pushScriptsPhase_state_of_allPresent (localScripts : List (ScriptMetadata × String))
    (scripts : List RemoteScript) (next : Nat)
    (hlocal : (localScripts.map (fun p => p.1.id)).Nodup)
    (hsnap : (scripts.map RemoteScript.id).Nodup)
    (H : ∀ p ∈ localScripts, scripts.any (fun s => s.id = p.1.id) = true) :
    (pushScriptsPhase localScripts scripts next).2.2 =
      (updateAll RemoteScript.id (scriptEntries localScripts) scripts, next) := by
  unfold pushScriptsPhase
  exact pushScriptsLoop_state scripts localScripts scripts 0 [] next hlocal hsnap
    (fun p _ => rfl) H

/-- Running the scripts phase twice with the same local scripts yields the
same remote scripts and id counter as running it once, provided every
local script id already exists remotely. -/
theorem pushScriptsPhase_state_idem (localScripts : List (ScriptMetadata × String))
    (scripts : List RemoteScript) (next : Nat)
    (hlocal : (localScripts.map (fun p => p.1.id)).Nodup)
    (hsnap : (scripts.map RemoteScript.id).Nodup)
    (H : ∀ p ∈ localScripts, scripts.any (fun s => s.id = p.1.id) = true) :
    (pushScriptsPhase localScripts
      (pushScriptsPhase localScripts scripts next).2.2.1
      (pushScriptsPhase localScripts scripts next).2.2.2).2.2 =
      (pushScriptsPhase localScripts scripts next).2.2 := by
  have h₁ := pushScriptsPhase_state_of_allPresent localScripts scripts next hlocal hsnap H
  have hfinal1 : (pushScriptsPhase localScripts scripts next).2.2.1 =
      updateAll RemoteScript.id (scriptEntries localScripts) scripts := by
    rw [h₁]
  have hnext1 : (pushScriptsPhase localScripts scripts next).2.2.2 = next := by
    rw [h₁]
  rw [hfinal1, hnext1, h₁]
  have hndE : ((scriptEntries localScripts).map RemoteScript.id).Nodup := by
    rw [ids_scriptEntries]
    exact hlocal
  have hids : (updateAll RemoteScript.id (scriptEntries localScripts) scripts).map
      RemoteScript.id = scripts.map RemoteScript.id :=
    ids_updateAll RemoteScript.id (scriptEntries localScripts) scripts
  have hndF : ((updateAll RemoteScript.id (scriptEntries localScripts) scripts).map
      RemoteScript.id).Nodup := by
    rw [hids]
    exact hsnap
  have hfindE : ∀ e ∈ scriptEntries localScripts,
      findByKey RemoteScript.id
        (updateAll RemoteScript.id (scriptEntries localScripts) scripts)
        (RemoteScript.id e) = some e := by
    intro e he
    apply updateAll_find_self RemoteScript.id (scriptEntries localScripts) scripts e he hndE
    rcases List.mem_map.mp he with ⟨p, hp, hpe⟩
    have := H p hp
    rw [List.any_eq_true] at this ⊢
    rcases this with ⟨s, hs, hsid⟩
    refine ⟨s, hs, ?_⟩
    rw [← hpe]
    simpa using hsid
  have H₂ : ∀ p ∈ localScripts,
      (updateAll RemoteScript.id (scriptEntries localScripts) scripts).any
        (fun s => s.id = p.1.id) = true := by
    intro p hp
    have he : scriptEntryFor p.1 p.2 ∈ scriptEntries localScripts :=
      List.mem_map.mpr ⟨p, hp, rfl⟩
    have := hfindE (scriptEntryFor p.1 p.2) he
    rw [← findByKey_isSome_iff_any]
    rw [show (scriptEntryFor p.1 p.2).id = p.1.id from rfl] at this
    rw [this]
    rfl
  rw [pushScriptsPhase_state_of_allPresent localScripts _ next hlocal hndF H₂]
  have hstable : updateAll RemoteScript.id (scriptEntries localScripts)
      (updateAll RemoteScript.id (scriptEntries localScripts) scripts) =
      updateAll RemoteScript.id (scriptEntries localScripts) scripts := by
    unfold updateAll
    apply foldl_fixed
    intro e he
    exact mapByKey_stable RemoteScript.id _ (RemoteScript.id e) (fun _ => e) hndF e
      (hfindE e he) rfl
  rw [hstable]
/-! ## Whole-push state assembly -/

theorem pushDeviceConfig_state (deviceID : String) (ls : LocalState)
    (context : List (String × JValue)) (st : RemoteState)
    (hfolder : ls.folderExists = true) :
    (pushDeviceConfig deviceID ls context false st).2.2 =
      RemoteState.mk
        (pushConfigsPhase ls.componentFiles st.configs).2.2
        (pushScriptsPhase ls.scripts st.scripts st.nextScriptId).2.2.1
        (pushScriptsPhase ls.scripts st.scripts st.nextScriptId).2.2.2
        (reconcilePhase Schedule.id (fun s i => { s with id := i })
          RemoteCall.createSchedule RemoteCall.updateSchedule RemoteCall.deleteSchedule
          ls.schedules st.schedules st.nextScheduleId).2.2.1
        (reconcilePhase Schedule.id (fun s i => { s with id := i })
          RemoteCall.createSchedule RemoteCall.updateSchedule RemoteCall.deleteSchedule
          ls.schedules st.schedules st.nextScheduleId).2.2.2
        (reconcilePhase Webhook.id (fun w i => { w with id := i })
          RemoteCall.createWebhook RemoteCall.updateWebhook RemoteCall.deleteWebhook
          ls.webhooks st.webhooks st.nextWebhookId).2.2.1
        (reconcilePhase Webhook.id (fun w i => { w with id := i })
          RemoteCall.createWebhook RemoteCall.updateWebhook RemoteCall.deleteWebhook
          ls.webhooks st.webhooks st.nextWebhookId).2.2.2
        (pushKvsPhase ls.kvs context st.kvs).2.2 := by
  simp [pushDeviceConfig, hfolder]

theorem pushDeviceConfig_state_idem_aux (deviceID : String) (ls : LocalState)
    (context : List (String × JValue)) (st : RemoteState)
    (hwfL : ls.WF) (hwfS : st.WF)
    (hscripts : ∀ p ∈ ls.scripts, st.scripts.any (fun s => s.id = p.1.id) = true)
    (hscheds : ∀ s ∈ ls.schedules, st.schedules.any (fun r => r.id = s.id) = true)
    (hhooks : ∀ w ∈ ls.webhooks, st.webhooks.any (fun r => r.id = w.id) = true) :
    (pushDeviceConfig deviceID ls context false
      (pushDeviceConfig deviceID ls context false st).2.2).2.2 =
    (pushDeviceConfig deviceID ls context false st).2.2 := by
  obtain ⟨hL1, hL2, hL3, hL4, hL5⟩ := hwfL
  obtain ⟨hS1, hS2, hS3, hS4, hS5⟩ := hwfS
  by_cases hfolder : ls.folderExists = true
  · rw [pushDeviceConfig_state deviceID ls context st hfolder]
    rw [pushDeviceConfig_state deviceID ls context _ hfolder]
    simp only
    have hconf : (pushConfigsPhase ls.componentFiles
        (pushConfigsPhase ls.componentFiles st.configs).2.2).2.2 =
        (pushConfigsPhase ls.componentFiles st.configs).2.2 := by
      rw [pushConfigsPhase_eq, pushConfigsPhase_eq]
      exact applySets_idem (configUpdates ls.componentFiles) st.configs hL1 hS1
    have hscr := pushScriptsPhase_state_idem ls.scripts st.scripts st.nextScriptId
      hL2 hS2 hscripts
    have hscr1 : (pushScriptsPhase ls.scripts
        (pushScriptsPhase ls.scripts st.scripts st.nextScriptId).2.2.1
        (pushScriptsPhase ls.scripts st.scripts st.nextScriptId).2.2.2).2.2.1 =
        (pushScriptsPhase ls.scripts st.scripts st.nextScriptId).2.2.1 :=
      congrArg Prod.fst hscr
    have hscr2 : (pushScriptsPhase ls.scripts
        (pushScriptsPhase ls.scripts st.scripts st.nextScriptId).2.2.1
        (pushScriptsPhase ls.scripts st.scripts st.nextScriptId).2.2.2).2.2.2 =
        (pushScriptsPhase ls.scripts st.scripts st.nextScriptId).2.2.2 :=
      congrArg Prod.snd hscr
    have hsch := reconcilePhase_state_idem Schedule.id (fun s i => { s with id := i })
      RemoteCall.createSchedule RemoteCall.updateSchedule RemoteCall.deleteSchedule
      ls.schedules st.schedules st.nextScheduleId hL3 hS3 hscheds
    have hsch1 := congrArg Prod.fst hsch
    have hsch2 := congrArg Prod.snd hsch
    have hweb := reconcilePhase_state_idem Webhook.id (fun w i => { w with id := i })
      RemoteCall.createWebhook RemoteCall.updateWebhook RemoteCall.deleteWebhook
      ls.webhooks st.webhooks st.nextWebhookId hL4 hS4 hhooks
    have hweb1 := congrArg Prod.fst hweb
    have hweb2 := congrArg Prod.snd hweb
    have hkvs := pushKvsPhase_state_idem ls.kvs context st.kvs hL5 hS5
    simp only at hscr1 hscr2 hsch1 hsch2 hweb1 hweb2
    rw [RemoteState.mk.injEq]
    exact ⟨hconf, hscr1, hscr2, hsch1, hsch2, hweb1, hweb2, hkvs⟩
  · have hfolder' : ls.folderExists = false := by
      simpa using hfolder
    simp [pushDeviceConfig, hfolder']
/-! ## Pull result characterization -/

theorem pullDeviceConfig_result_deviceID (env : PullEnv) (device : Device)
    (fs0 : DeviceLocal) (now : Nat) :
    (pullDeviceConfig env device fs0 now).result.deviceID = device.deviceID := by
  rcases env with ⟨di, sc, scr, sch, wh, kv, comp⟩
  cases di with
  | error e => simp [pullDeviceConfig]
  | ok info =>
      cases sc with
      | error e => simp [pullDeviceConfig]
      | ok configMap => simp [pullDeviceConfig]

theorem pullDeviceConfig_result_success (env : PullEnv) (device : Device)
    (fs0 : DeviceLocal) (now : Nat) :
    (pullDeviceConfig env device fs0 now).result.success =
      (isOkE env.deviceInfo && isOkE env.shellyConfig) := by
  rcases env with ⟨di, sc, scr, sch, wh, kv, comp⟩
  cases di with
  | error e => simp [pullDeviceConfig, isOkE]
  | ok info =>
      cases sc with
      | error e => simp [pullDeviceConfig, isOkE]
      | ok configMap => simp [pullDeviceConfig, isOkE]

/-! ## No script deletion during push -/

theorem noDeleteScript_configsPhase (i : Nat)
    (files : List (String × List (String × JValue)))
    (c : List ((String × Option Nat) × List (String × JValue))) :
    RemoteCall.deleteScript i ∉ (pushConfigsPhase files c).2.1 := by
  rw [pushConfigsPhase_eq]
  intro h
  rcases List.mem_map.mp h with ⟨kv, _, hkv⟩
  cases hkv

theorem noDeleteScript_oneScript (i : Nat) (snapshot : List RemoteScript)
    (meta : ScriptMetadata) (code : String) (cur : List RemoteScript) (next : Nat) :
    RemoteCall.deleteScript i ∉ (pushOneScript snapshot meta code cur next).1 := by
  simp only [pushOneScript]
  cases hf : snapshot.find? (fun s => s.id = meta.id) with
  | none =>
      by_cases hen : meta.enable = true
      · simp [hen]
      · simp [hen]
  | some ex =>
      by_cases hrun : ex.running = true
      · by_cases hen : meta.enable = true
        · simp [hrun, hen]
        · simp [hrun, hen]
      · by_cases hen : meta.enable = true
        · simp [hrun, hen]
        · simp [hrun, hen]

theorem noDeleteScript_scriptsLoop (i : Nat) (scripts : List RemoteScript)
    (locals : List (ScriptMetadata × String)) (cur : List RemoteScript)
    (n : Nat) (tr : List RemoteCall) (nx : Nat)
    (htr : RemoteCall.deleteScript i ∉ tr) :
    RemoteCall.deleteScript i ∉
      (locals.foldl
        (fun acc entry =>
          let step := pushOneScript scripts entry.1 entry.2 acc.2.2.1 acc.2.2.2
          (acc.1 + 1, acc.2.1 ++ step.1, step.2.1, step.2.2))
        (n, tr, cur, nx)).2.1 := by
  induction locals generalizing cur n tr nx with
  | nil => exact htr
  | cons p t ih =>
      rw [List.foldl_cons]
      apply ih
      intro h
      rcases List.mem_append.mp h with h | h
      · exact htr h
      · exact noDeleteScript_oneScript i scripts p.1 p.2 cur nx h

theorem noDeleteScript_scriptsPhase (i : Nat)
    (locals : List (ScriptMetadata × String)) (scripts : List RemoteScript) (next : Nat) :
    RemoteCall.deleteScript i ∉ (pushScriptsPhase locals scripts next).2.1 := by
  unfold pushScriptsPhase
  exact noDeleteScript_scriptsLoop i scripts locals scripts 0 [] next (by simp)

theorem noDeleteScript_schedulePhase (i : Nat) (locals snapshot : List Schedule)
    (next : Nat) :
    RemoteCall.deleteScript i ∉
      (reconcilePhase Schedule.id (fun s j => { s with id := j })
        RemoteCall.createSchedule RemoteCall.updateSchedule RemoteCall.deleteSchedule
        locals snapshot next).2.1 := by
  rw [reconcilePhase_trace]
  intro h
  rcases List.mem_append.mp h with h | h
  · rcases List.mem_map.mp h with ⟨s, _, hs⟩
    by_cases hc : snapshot.any (fun r => Schedule.id r = Schedule.id s) = true
    · rw [if_pos hc] at hs
      cases hs
    · rw [if_neg hc] at hs
      cases hs
  · rcases List.mem_map.mp h with ⟨j, _, hj⟩
    cases hj

theorem noDeleteScript_webhookPhase (i : Nat) (locals snapshot : List Webhook)
    (next : Nat) :
    RemoteCall.deleteScript i ∉
      (reconcilePhase Webhook.id (fun w j => { w with id := j })
        RemoteCall.createWebhook RemoteCall.updateWebhook RemoteCall.deleteWebhook
        locals snapshot next).2.1 := by
  rw [reconcilePhase_trace]
  intro h
  rcases List.mem_append.mp h with h | h
  · rcases List.mem_map.mp h with ⟨s, _, hs⟩
    by_cases hc : snapshot.any (fun r => Webhook.id r = Webhook.id s) = true
    · rw [if_pos hc] at hs
      cases hs
    · rw [if_neg hc] at hs
      cases hs
  · rcases List.mem_map.mp h with ⟨j, _, hj⟩
    cases hj

theorem noDeleteScript_kvsPhase (i : Nat) (localKVS : KVSMap)
    (context : List (String × JValue)) (kvs : KVSMap) :
    RemoteCall.deleteScript i ∉ (pushKvsPhase localKVS context kvs).2.1 := by
  by_cases hne : localKVS.isEmpty = true
  · simp [pushKvsPhase, hne]
  · rw [pushKvsPhase_eq localKVS context kvs (by simpa using hne)]
    intro h
    rcases List.mem_append.mp h with h | h
    · rcases List.mem_map.mp h with ⟨kv, _, hkv⟩
      cases hkv
    · rcases List.mem_map.mp h with ⟨k, _, hk⟩
      cases hk

theorem pushDeviceConfig_trace_parts (deviceID : String) (ls : LocalState)
    (context : List (String × JValue)) (st : RemoteState)
    (hfolder : ls.folderExists = true) :
    (pushDeviceConfig deviceID ls context false st).2.1 =
      (pushConfigsPhase ls.componentFiles st.configs).2.1 ++
      (pushScriptsPhase ls.scripts st.scripts st.nextScriptId).2.1 ++
      (reconcilePhase Schedule.id (fun s i => { s with id := i })
        RemoteCall.createSchedule RemoteCall.updateSchedule RemoteCall.deleteSchedule
        ls.schedules st.schedules st.nextScheduleId).2.1 ++
      (reconcilePhase Webhook.id (fun w i => { w with id := i })
        RemoteCall.createWebhook RemoteCall.updateWebhook RemoteCall.deleteWebhook
        ls.webhooks st.webhooks st.nextWebhookId).2.1 ++
      (pushKvsPhase ls.kvs context st.kvs).2.1 := by
  simp [pushDeviceConfig, hfolder]

theorem noDeleteScript_push (i : Nat) (deviceID : String) (ls : LocalState)
    (context : List (String × JValue)) (st : RemoteState) :
    RemoteCall.deleteScript i ∉ (pushDeviceConfig deviceID ls context false st).2.1 := by
  by_cases hfolder : ls.folderExists = true
  · rw [pushDeviceConfig_trace_parts deviceID ls context st hfolder]
    intro h
    rcases List.mem_append.mp h with h | h
    · rcases List.mem_append.mp h with h | h
      · rcases List.mem_append.mp h with h | h
        · rcases List.mem_append.mp h with h | h
          · exact noDeleteScript_configsPhase i _ _ h
          · exact noDeleteScript_scriptsPhase i _ _ _ h
        · exact noDeleteScript_schedulePhase i _ _ _ h
      · exact noDeleteScript_webhookPhase i _ _ _ h
    · exact noDeleteScript_kvsPhase i _ _ _ h
  · have hfolder' : ls.folderExists = false := by
      simpa using hfolder
    simp [pushDeviceConfig, hfolder']

/-! ## Membership in the deleted-id list -/

theorem mem_deadIds_iff {α : Type} (getId : α → Nat) (locals snapshot : List α) (i : Nat) :
    i ∈ deadIds getId locals snapshot ↔
      (snapshot.any (fun r => getId r = i) = true ∧
        locals.any (fun ls => getId ls = i) = false) := by
  unfold deadIds
  constructor
  · intro h
    rcases List.mem_map.mp h with ⟨r, hr, hid⟩
    have hrf := List.mem_filter.mp hr
    constructor
    · rw [List.any_eq_true]
      exact ⟨r, hrf.1, by simpa using hid⟩
    · have := hrf.2
      cases hval : locals.any (fun ls => getId ls = i) with
      | false => rfl
      | true =>
          exfalso
          rw [List.any_eq_true] at hval
          rcases hval with ⟨ls, hls, hlsid⟩
          have : locals.any (fun ls => getId ls = getId r) = true := by
            rw [List.any_eq_true]
            refine ⟨ls, hls, ?_⟩
            rw [hid]
            exact hlsid
          simp [this] at hrf
  · intro ⟨h1, h2⟩
    rw [List.any_eq_true] at h1
    rcases h1 with ⟨r, hr, hid⟩
    apply List.mem_map.mpr
    refine ⟨r, ?_, by simpa using hid⟩
    rw [List.mem_filter]
    refine ⟨hr, ?_⟩
    have hany : locals.any (fun ls => getId ls = getId r) = false := by
      cases hval : locals.any (fun ls => getId ls = getId r) with
      | false => rfl
      | true =>
          exfalso
          rw [List.any_eq_true] at hval
          rcases hval with ⟨ls, hls, hlsid⟩
          have : locals.any (fun ls => getId ls = i) = true := by
            rw [List.any_eq_true]
            refine ⟨ls, hls, ?_⟩
            have hri : getId r = i := by
              simpa using hid
            rw [← hri]
            exact hlsid
          rw [this] at h2
          cases h2
    simp [hany]

/-! ## Execution success implies every referenced key resolves -/

theorem execTokens_ok_resolve (context : List (String × JValue)) :
    ∀ (toks : List TmplToken) (out : String), execTokens context toks = .ok out →
      ∀ chain, TmplToken.action chain ∈ toks → ∃ v, resolveChain context chain = .ok v := by
  intro toks
  induction toks with
  | nil =>
      intro out _ chain h
      cases h
  | cons tok rest ih =>
      intro out hok chain hmem
      cases tok with
      | lit c =>
          rcases List.mem_cons.mp hmem with h | h
          · cases h
          · simp only [execTokens] at hok
            cases hrest : execTokens context rest with
            | error e =>
                rw [hrest] at hok
                cases hok
            | ok s => exact ih s hrest chain h
      | action chain' =>
          simp only [execTokens] at hok
          cases hres : resolveChain context chain' with
          | error e =>
              rw [hres] at hok
              cases hok
          | ok v =>
              rw [hres] at hok
              rcases List.mem_cons.mp hmem with h | h
              · have : chain = chain' := by
                  injection h
                subst this
                exact ⟨v, hres⟩
              · cases hrest : execTokens context rest with
                | error e =>
                    rw [hrest] at hok
                    cases hok
                | ok s => exact ih s hrest chain h
/-! ## Manifest helper lemmas -/

theorem AddDevice_append_of_no_match (m : List Device) (d : Device)
    (h : ∀ e ∈ m, ¬ e.deviceID = d.deviceID) :
    AddDevice m d = m ++ [d] := by
  induction m with
  | nil => rfl
  | cons e rest ih =>
      unfold AddDevice
      rw [if_neg (h e (List.mem_cons_self e rest))]
      rw [ih (fun e' he' => h e' (List.mem_cons_of_mem e he'))]
      rfl

theorem AddDevice_set_of_match (m : List Device) (d : Device)
    (hnd : (m.map Device.deviceID).Nodup) (i : Nat) (hi : i < m.length)
    (h : (m.get ⟨i, hi⟩).deviceID = d.deviceID) :
    AddDevice m d = m.set i d := by
  induction m generalizing i with
  | nil => cases hi
  | cons e rest ih =>
      have hnd' : (rest.map Device.deviceID).Nodup :=
        (List.nodup_cons.mp (by simpa using hnd)).2
      have hnotin : e.deviceID ∉ rest.map Device.deviceID :=
        (List.nodup_cons.mp (by simpa using hnd)).1
      cases i with
      | zero =>
          simp only [List.get] at h
          unfold AddDevice
          rw [if_pos h]
          rfl
      | succ j =>
          have hj : j < rest.length := Nat.lt_of_succ_lt_succ hi
          have hget : (rest.get ⟨j, hj⟩).deviceID = d.deviceID := h
          have hne : ¬ e.deviceID = d.deviceID := by
            intro heq
            apply hnotin
            rw [heq, ← hget]
            exact List.mem_map.mpr ⟨rest.get ⟨j, hj⟩, List.get_mem rest j hj, rfl⟩
          unfold AddDevice
          rw [if_neg hne, ih hnd' j hj hget]
          rfl

theorem GetDevice_AddDevice_self (m : List Device) (d : Device) :
    GetDevice (AddDevice m d) d.deviceID = some d := by
  induction m with
  | nil =>
      unfold AddDevice GetDevice
      rw [if_pos rfl]
  | cons e rest ih =>
      unfold AddDevice
      by_cases h : e.deviceID = d.deviceID
      · rw [if_pos h]
        unfold GetDevice
        rw [if_pos rfl]
      · rw [if_neg h]
        unfold GetDevice
        rw [if_neg h]
        exact ih

theorem mem_ids_AddDevice (m : List Device) (d : Device) (x : String)
    (h : x ∈ (AddDevice m d).map Device.deviceID) :
    x ∈ m.map Device.deviceID ∨ x = d.deviceID := by
  induction m with
  | nil =>
      simp only [AddDevice, List.map_cons, List.map_nil, List.mem_singleton] at h
      exact Or.inr h
  | cons e rest ih =>
      unfold AddDevice at h
      by_cases he : e.deviceID = d.deviceID
      · rw [if_pos he] at h
        simp only [List.map_cons, List.mem_cons] at h
        rcases h with h | h
        · exact Or.inr h
        · exact Or.inl (by rw [List.map_cons]; exact List.mem_cons_of_mem _ h)
      · rw [if_neg he] at h
        simp only [List.map_cons, List.mem_cons] at h
        rcases h with h | h
        · exact Or.inl (by rw [List.map_cons]; exact List.mem_cons.mpr (Or.inl h))
        · rcases ih h with h' | h'
          · exact Or.inl (by rw [List.map_cons]; exact List.mem_cons_of_mem _ h')
          · exact Or.inr h'

theorem nodup_ids_AddDevice (m : List Device) (d : Device)
    (hnd : (m.map Device.deviceID).Nodup) :
    ((AddDevice m d).map Device.deviceID).Nodup := by
  induction m with
  | nil => simp [AddDevice]
  | cons e rest ih =>
      have hnd' : (rest.map Device.deviceID).Nodup :=
        (List.nodup_cons.mp (by simpa using hnd)).2
      have hnotin : e.deviceID ∉ rest.map Device.deviceID :=
        (List.nodup_cons.mp (by simpa using hnd)).1
      unfold AddDevice
      by_cases he : e.deviceID = d.deviceID
      · rw [if_pos he]
        simp only [List.map_cons, List.nodup_cons]
        refine ⟨?_, hnd'⟩
        rw [← he]
        exact hnotin
      · rw [if_neg he]
        simp only [List.map_cons, List.nodup_cons]
        refine ⟨?_, ih hnd'⟩
        intro hmem
        rcases mem_ids_AddDevice rest d e.deviceID hmem with h | h
        · exact hnotin h
        · exact he h

/-- C10: `AddDevice` preserves device-id uniqueness, replaces a matching
entry in place (all other entries and the order unchanged), appends when
the id is new, and `GetDevice` afterwards returns the added device. -/
theorem addDevice_getDevice_spec (m : List Device) (d : Device)
    (hnd : (m.map Device.deviceID).Nodup) :
    ((AddDevice m d).map Device.deviceID).Nodup ∧
    (∀ (i : Nat) (hi : i < m.length), (m.get ⟨i, hi⟩).deviceID = d.deviceID →
      AddDevice m d = m.set i d) ∧
    ((∀ e ∈ m, ¬ e.deviceID = d.deviceID) → AddDevice m d = m ++ [d]) ∧
    GetDevice (AddDevice m d) d.deviceID = some d :=
  ⟨nodup_ids_AddDevice m d hnd,
    fun i hi h => AddDevice_set_of_match m d hnd i hi h,
    fun h => AddDevice_append_of_no_match m d h,
    GetDevice_AddDevice_self m d⟩

/-- Witness for C10 on a concrete two-device manifest. -/
theorem addDevice_getDevice_spec_witness :
    (([⟨"a", "A", "fa", "1", "m1", "S", 0⟩, ⟨"b", "B", "fb", "2", "m2", "S", 0⟩] :
        List Device).map Device.deviceID).Nodup ∧
    AddDevice [⟨"a", "A", "fa", "1", "m1", "S", 0⟩, ⟨"b", "B", "fb", "2", "m2", "S", 0⟩]
        ⟨"b", "B2", "fb2", "3", "m3", "S2", 7⟩ =
      List.set [⟨"a", "A", "fa", "1", "m1", "S", 0⟩, ⟨"b", "B", "fb", "2", "m2", "S", 0⟩] 1
        ⟨"b", "B2", "fb2", "3", "m3", "S2", 7⟩ ∧
    GetDevice
      (AddDevice [⟨"a", "A", "fa", "1", "m1", "S", 0⟩, ⟨"b", "B", "fb", "2", "m2", "S", 0⟩]
        ⟨"b", "B2", "fb2", "3", "m3", "S2", 7⟩) "b" =
      some ⟨"b", "B2", "fb2", "3", "m3", "S2", 7⟩ := by
  have h := addDevice_getDevice_spec
    [⟨"a", "A", "fa", "1", "m1", "S", 0⟩, ⟨"b", "B", "fb", "2", "m2", "S", 0⟩]
    ⟨"b", "B2", "fb2", "3", "m3", "S2", 7⟩ (by decide)
  exact ⟨by decide, h.2.1 1 (by decide) (by decide), h.2.2.2⟩

/-- C6: a dirty working copy aborts the whole pull before any per-device
work: the call errors, the manifest and every device folder are unchanged,
and the outcome does not depend on any remote response. -/
theorem pull_preflight_dirty_abort (hasChanges : Except String Bool)
    (manifest : List Device) (envOf envOf' : String → PullEnv)
    (localOf : String → DeviceLocal) (now : Nat)
    (hdirty : hasChanges = .ok true) :
    (PullFromDevices hasChanges manifest envOf localOf now).1 =
      .error "cannot pull: working tree has uncommitted changes. Please commit or stash your changes first" ∧
    (PullFromDevices hasChanges manifest envOf localOf now).2.1 = manifest ∧
    (PullFromDevices hasChanges manifest envOf localOf now).2.2 = localOf ∧
    PullFromDevices hasChanges manifest envOf localOf now =
      PullFromDevices hasChanges manifest envOf' localOf now := by
  subst hdirty
  exact ⟨rfl, rfl, rfl, rfl⟩

/-- Witness for C6 on a concrete one-device manifest. -/
theorem pull_preflight_dirty_abort_witness :
    (PullFromDevices (.ok true) [⟨"a", "A", "fa", "1", "m1", "S", 0⟩]
      (fun _ => ⟨.error "net", .error "net", .error "net", .error "net",
        .error "net", .error "net", .error "net"⟩)
      (fun _ => ⟨true, none, [], [], [], [], [], [], []⟩) 0).1 =
      .error "cannot pull: working tree has uncommitted changes. Please commit or stash your changes first" ∧
    (PullFromDevices (.ok true) [⟨"a", "A", "fa", "1", "m1", "S", 0⟩]
      (fun _ => ⟨.error "net", .error "net", .error "net", .error "net",
        .error "net", .error "net", .error "net"⟩)
      (fun _ => ⟨true, none, [], [], [], [], [], [], []⟩) 0).2.1 =
      [⟨"a", "A", "fa", "1", "m1", "S", 0⟩] :=
  let h := pull_preflight_dirty_abort (.ok true) [⟨"a", "A", "fa", "1", "m1", "S", 0⟩]
    (fun _ => ⟨.error "net", .error "net", .error "net", .error "net",
      .error "net", .error "net", .error "net"⟩)
    (fun _ => ⟨.error "x", .error "x", .error "x", .error "x",
      .error "x", .error "x", .error "x"⟩)
    (fun _ => ⟨true, none, [], [], [], [], [], [], []⟩) 0 rfl
  ⟨h.1, h.2.1⟩

/-- C5 (amended): a dry-run push issues no remote call at all and leaves
the remote state untouched, and (when the device folder exists) reports a
fixed success message rather than per-class counts. -/
theorem push_dry_run_no_mutation (deviceID : String) (ls : LocalState)
    (context : List (String × JValue)) (st : RemoteState) :
    (pushDeviceConfig deviceID ls context true st).2.1 = [] ∧
    (pushDeviceConfig deviceID ls context true st).2.2 = st ∧
    (ls.folderExists = true →
      (pushDeviceConfig deviceID ls context true st).1 =
        ⟨deviceID, true, none, "dry-run: would push all configurations"⟩) := by
  by_cases hf : ls.folderExists = true
  · refine ⟨?_, ?_, fun _ => ?_⟩ <;> simp [pushDeviceConfig, hf]
  · refine ⟨?_, ?_, fun h => absurd h hf⟩ <;> simp [pushDeviceConfig, hf]

/-- Witness for C5 (amended) on a concrete local state. -/
theorem push_dry_run_no_mutation_witness :
    (pushDeviceConfig "dev"
      ⟨true, [("switch-0", [("on", JValue.boolean true)])], [], [], [], []⟩ [] true
      ⟨[], [], 1, [], 1, [], 1, []⟩).2.1 = [] ∧
    (pushDeviceConfig "dev"
      ⟨true, [("switch-0", [("on", JValue.boolean true)])], [], [], [], []⟩ [] true
      ⟨[], [], 1, [], 1, [], 1, []⟩).2.2 = ⟨[], [], 1, [], 1, [], 1, []⟩ ∧
    (pushDeviceConfig "dev"
      ⟨true, [("switch-0", [("on", JValue.boolean true)])], [], [], [], []⟩ [] true
      ⟨[], [], 1, [], 1, [], 1, []⟩).1 =
      ⟨"dev", true, none, "dry-run: would push all configurations"⟩ :=
  let h := push_dry_run_no_mutation "dev"
    ⟨true, [("switch-0", [("on", JValue.boolean true)])], [], [], [], []⟩ []
    ⟨[], [], 1, [], 1, [], 1, []⟩
  ⟨h.1, h.2.1, h.2.2 rfl⟩

/-- Counterexample for C5 as stated: the dry-run result message is one
fixed string with no per-class counts, while a real push reports per-class
counts; two local states with different real-push summaries produce the
same dry-run message. -/
theorem push_dry_run_message_without_counts :
    (pushDeviceConfig "dev"
      ⟨true, [("switch-0", [("on", JValue.boolean true)])], [], [], [], []⟩ [] true
      ⟨[], [], 1, [], 1, [], 1, []⟩).1.message =
      "dry-run: would push all configurations" ∧
    (pushDeviceConfig "dev"
      ⟨true, [("switch-0", [("on", JValue.boolean true)])], [], [], [], []⟩ [] false
      ⟨[], [], 1, [], 1, [], 1, []⟩).1.message = "pushed 1 config(s)" ∧
    (pushDeviceConfig "dev"
      ⟨true, [("switch-0", [("on", JValue.boolean true)]),
        ("wifi", [("ssid", JValue.str "x")])], [], [], [], []⟩ [] true
      ⟨[], [], 1, [], 1, [], 1, []⟩).1.message =
      (pushDeviceConfig "dev"
        ⟨true, [("switch-0", [("on", JValue.boolean true)])], [], [], [], []⟩ [] true
        ⟨[], [], 1, [], 1, [], 1, []⟩).1.message ∧
    (pushDeviceConfig "dev"
      ⟨true, [("switch-0", [("on", JValue.boolean true)]),
        ("wifi", [("ssid", JValue.str "x")])], [], [], [], []⟩ [] false
      ⟨[], [], 1, [], 1, [], 1, []⟩).1.message = "pushed 2 config(s)" ∧
    (pushDeviceConfig "dev"
      ⟨true, [("switch-0", [("on", JValue.boolean true)])], [], [], [], []⟩ [] true
      ⟨[], [], 1, [], 1, [], 1, []⟩).1.message ≠
    (pushDeviceConfig "dev"
      ⟨true, [("switch-0", [("on", JValue.boolean true)])], [], [], [], []⟩ [] false
      ⟨[], [], 1, [], 1, [], 1, []⟩).1.message :=
  ⟨rfl, rfl, rfl, rfl, by decide⟩

/-- C8: pushing a script whose remote counterpart is currently running
issues, in order, a stop, the code upload, the configuration call, and
then a start exactly when the declared enable state is true; the code is
uploaded only after the stop. -/
theorem push_running_script_call_order (snapshot : List RemoteScript)
    (meta : ScriptMetadata) (code : String) (cur : List RemoteScript)
    (next : Nat) (ex : RemoteScript)
    (hfind : snapshot.find? (fun s => s.id = meta.id) = some ex)
    (hrun : ex.running = true) :
    (pushOneScript snapshot meta code cur next).1 =
      [RemoteCall.stopScript meta.id, RemoteCall.putScriptCode meta.id code,
        RemoteCall.setScriptConfig meta.id meta.name meta.enable] ++
      (if meta.enable then [RemoteCall.startScript meta.id] else []) := by
  simp only [pushOneScript, hfind, if_pos hrun]
  by_cases hen : meta.enable = true
  · simp [hen]
  · simp [hen]

/-- Witness for C8 on a concrete running script. -/
theorem push_running_script_call_order_witness :
    ([⟨5, "s", true, true, "old"⟩] : List RemoteScript).find?
      (fun s => s.id = (⟨5, "s", true⟩ : ScriptMetadata).id) =
      some ⟨5, "s", true, true, "old"⟩ ∧
    (pushOneScript [⟨5, "s", true, true, "old"⟩] ⟨5, "s", true⟩ "new" 
      [⟨5, "s", true, true, "old"⟩] 6).1 =
      [RemoteCall.stopScript 5, RemoteCall.putScriptCode 5 "new",
        RemoteCall.setScriptConfig 5 "s" true] ++
      (if true then [RemoteCall.startScript 5] else []) :=
  ⟨rfl, push_running_script_call_order [⟨5, "s", true, true, "old"⟩] ⟨5, "s", true⟩
    "new" [⟨5, "s", true, true, "old"⟩] 6 ⟨5, "s", true, true, "old"⟩ rfl rfl⟩

/-- C4 (amended): when a local script has no matching remote id, push
creates it and adopts the remote-assigned id for every later call on that
record in the same run (code upload, configuration, optional start), and
the id counter advances; the adopted id is held only in memory — the push
never writes it back to the local record (see the counterexample, where a
second run re-creates the script). -/
theorem push_create_adopts_remote_id_in_run (snapshot : List RemoteScript)
    (meta : ScriptMetadata) (code : String) (cur : List RemoteScript) (next : Nat)
    (habsent : snapshot.find? (fun s => s.id = meta.id) = none) :
    (pushOneScript snapshot meta code cur next).1 =
      [RemoteCall.createScript meta.name, RemoteCall.putScriptCode next code,
        RemoteCall.setScriptConfig next meta.name meta.enable] ++
      (if meta.enable then [RemoteCall.startScript next] else []) ∧
    (pushOneScript snapshot meta code cur next).2.2 = next + 1 := by
  constructor
  · simp only [pushOneScript, habsent]
    by_cases hen : meta.enable = true
    · simp [hen]
    · simp [hen]
  · simp only [pushOneScript, habsent]
    by_cases hen : meta.enable = true
    · simp [hen]
    · simp [hen]

/-- Witness for C4 (amended) on a concrete absent script. -/
theorem push_create_adopts_remote_id_in_run_witness :
    ([] : List RemoteScript).find?
      (fun s => s.id = (⟨5, "s", false⟩ : ScriptMetadata).id) = none ∧
    (pushOneScript [] ⟨5, "s", false⟩ "x" [] 1).1 =
      [RemoteCall.createScript "s", RemoteCall.putScriptCode 1 "x",
        RemoteCall.setScriptConfig 1 "s" false] ++
      (if false then [RemoteCall.startScript 1] else []) ∧
    (pushOneScript [] ⟨5, "s", false⟩ "x" [] 1).2.2 = 2 :=
  ⟨rfl, (push_create_adopts_remote_id_in_run [] ⟨5, "s", false⟩ "x" [] 1 rfl).1,
    (push_create_adopts_remote_id_in_run [] ⟨5, "s", false⟩ "x" [] 1 rfl).2⟩

/-- Counterexample for C4 as stated: the remote-assigned id is not
persisted to the local on-disk record — the push returns no updated local
state, and a second push of the same unchanged local folder re-creates
the script under a fresh id instead of updating id 1. -/
theorem push_created_id_not_persisted :
    (pushDeviceConfig "dev" ⟨true, [], [(⟨5, "s", false⟩, "x")], [], [], []⟩ [] false
      ⟨[], [], 1, [], 1, [], 1, []⟩).2.1 =
      [RemoteCall.createScript "s", RemoteCall.putScriptCode 1 "x",
        RemoteCall.setScriptConfig 1 "s" false] ∧
    (pushDeviceConfig "dev" ⟨true, [], [(⟨5, "s", false⟩, "x")], [], [], []⟩ [] false
      (pushDeviceConfig "dev" ⟨true, [], [(⟨5, "s", false⟩, "x")], [], [], []⟩ [] false
        ⟨[], [], 1, [], 1, [], 1, []⟩).2.2).2.1 =
      [RemoteCall.createScript "s", RemoteCall.putScriptCode 2 "x",
        RemoteCall.setScriptConfig 2 "s" false] :=
  ⟨rfl, rfl⟩

/-- C3 (amended): for Schedule and Webhook the push trace contains exactly
one update per local record with a matching remote id, one create per
local record without one, and one delete per remote-only id (`deadIds`,
which holds exactly the snapshot ids with no local match); for Script no
delete call is ever issued during a push. -/
theorem push_create_update_delete_policy :
    (∀ (locals snapshot : List Schedule) (next : Nat),
      (reconcilePhase Schedule.id (fun s i => { s with id := i })
        RemoteCall.createSchedule RemoteCall.updateSchedule RemoteCall.deleteSchedule
        locals snapshot next).2.1 =
        locals.map (fun s =>
          if snapshot.any (fun r => r.id = s.id) then RemoteCall.updateSchedule s
          else RemoteCall.createSchedule s) ++
        (deadIds Schedule.id locals snapshot).map RemoteCall.deleteSchedule) ∧
    (∀ (locals snapshot : List Webhook) (next : Nat),
      (reconcilePhase Webhook.id (fun w i => { w with id := i })
        RemoteCall.createWebhook RemoteCall.updateWebhook RemoteCall.deleteWebhook
        locals snapshot next).2.1 =
        locals.map (fun w =>
          if snapshot.any (fun r => r.id = w.id) then RemoteCall.updateWebhook w
          else RemoteCall.createWebhook w) ++
        (deadIds Webhook.id locals snapshot).map RemoteCall.deleteWebhook) ∧
    (∀ (locals snapshot : List Schedule) (i : Nat),
      i ∈ deadIds Schedule.id locals snapshot ↔
        (snapshot.any (fun r => r.id = i) = true ∧
          locals.any (fun s => s.id = i) = false)) ∧
    (∀ (locals snapshot : List Webhook) (i : Nat),
      i ∈ deadIds Webhook.id locals snapshot ↔
        (snapshot.any (fun r => r.id = i) = true ∧
          locals.any (fun w => w.id = i) = false)) ∧
    (∀ (i : Nat) (deviceID : String) (ls : LocalState)
      (context : List (String × JValue)) (st : RemoteState),
      RemoteCall.deleteScript i ∉ (pushDeviceConfig deviceID ls context false st).2.1) :=
  ⟨fun locals snapshot next => reconcilePhase_trace Schedule.id _ _ _ _ locals snapshot next,
    fun locals snapshot next => reconcilePhase_trace Webhook.id _ _ _ _ locals snapshot next,
    fun locals snapshot i => mem_deadIds_iff Schedule.id locals snapshot i,
    fun locals snapshot i => mem_deadIds_iff Webhook.id locals snapshot i,
    fun i deviceID ls context st => noDeleteScript_push i deviceID ls context st⟩

/-- Counterexample for C3 as stated: with one remote-only script (id 1)
and no local scripts, a push issues no call at all — in particular no
script delete — and the remote-only script survives unchanged. -/
theorem push_remote_only_script_not_deleted :
    (pushDeviceConfig "dev" ⟨true, [], [], [], [], []⟩ [] false
      ⟨[], [⟨1, "old", true, true, "c"⟩], 2, [], 1, [], 1, []⟩).2.1 = [] ∧
    (pushDeviceConfig "dev" ⟨true, [], [], [], [], []⟩ [] false
      ⟨[], [⟨1, "old", true, true, "c"⟩], 2, [], 1, [], 1, []⟩).2.2.scripts =
      [⟨1, "old", true, true, "c"⟩] :=
  ⟨rfl, rfl⟩
/-! ## Claim C2: push idempotence -/

/-- C2 (amended): running push twice with no intervening local edits and
no external remote changes yields the same remote end state, provided
every local script, schedule, and webhook id already exists remotely
(the update-in-place paths).  Without that proviso idempotence fails: a
created record's remote-assigned id is never written back to the local
folder, so a second run re-creates it (see the counterexample). -/
theorem push_idempotent_on_existing_ids (deviceID : String) (ls : LocalState)
    (context : List (String × JValue)) (st : RemoteState)
    (hwfL : ls.WF) (hwfS : st.WF)
    (hscripts : ∀ p ∈ ls.scripts, st.scripts.any (fun s => s.id = p.1.id) = true)
    (hscheds : ∀ s ∈ ls.schedules, st.schedules.any (fun r => r.id = s.id) = true)
    (hhooks : ∀ w ∈ ls.webhooks, st.webhooks.any (fun r => r.id = w.id) = true) :
    (pushDeviceConfig deviceID ls context false
      (pushDeviceConfig deviceID ls context false st).2.2).2.2 =
    (pushDeviceConfig deviceID ls context false st).2.2 :=
  pushDeviceConfig_state_idem_aux deviceID ls context st hwfL hwfS hscripts hscheds hhooks

/-- A local folder whose script, schedule, and webhook ids all exist
remotely. -/
def c2Local : LocalState :=
  ⟨true, [("switch-0", [("on", JValue.boolean true)])],
    [(⟨5, "s", true⟩, "code")],
    [⟨3, true, "@daily 10:00", []⟩],
    [⟨4, 1, true, "switch.on", "hook", ["http://x"], []⟩],
    [("a", JValue.str "v")]⟩

/-- A remote state holding all of `c2Local`'s resource ids. -/
def c2Remote : RemoteState :=
  ⟨[], [⟨5, "old", false, true, "oldcode"⟩], 6,
    [⟨3, false, "x", []⟩, ⟨9, true, "y", []⟩], 10,
    [⟨4, 1, false, "e0", "", [], []⟩], 11,
    [("a", JValue.str "old"), ("zz", JValue.null)]⟩

/-- Witness for C2 (amended) on a concrete device. -/
theorem push_idempotent_on_existing_ids_witness :
    c2Local.WF ∧ c2Remote.WF ∧
    (pushDeviceConfig "dev" c2Local [] false
      (pushDeviceConfig "dev" c2Local [] false c2Remote).2.2).2.2 =
    (pushDeviceConfig "dev" c2Local [] false c2Remote).2.2 :=
  ⟨by decide, by decide,
    push_idempotent_on_existing_ids "dev" c2Local [] c2Remote (by decide) (by decide)
      (by decide) (by decide) (by decide)⟩

/-- Counterexample for C2 as stated: a local script with no matching
remote id is created on the first push, but since the remote-assigned id
is never persisted locally, the second push creates a second copy — the
remote end states after one and after two runs differ. -/
theorem push_twice_duplicates_scripts :
    (pushDeviceConfig "dev" ⟨true, [], [(⟨7, "dup", false⟩, "x")], [], [], []⟩ [] false
      ⟨[], [], 1, [], 1, [], 1, []⟩).2.2.scripts.length = 1 ∧
    (pushDeviceConfig "dev" ⟨true, [], [(⟨7, "dup", false⟩, "x")], [], [], []⟩ [] false
      (pushDeviceConfig "dev" ⟨true, [], [(⟨7, "dup", false⟩, "x")], [], [], []⟩ [] false
        ⟨[], [], 1, [], 1, [], 1, []⟩).2.2).2.2.scripts.length = 2 ∧
    (pushDeviceConfig "dev" ⟨true, [], [(⟨7, "dup", false⟩, "x")], [], [], []⟩ [] false
      (pushDeviceConfig "dev" ⟨true, [], [(⟨7, "dup", false⟩, "x")], [], [], []⟩ [] false
        ⟨[], [], 1, [], 1, [], 1, []⟩).2.2).2.2 ≠
    (pushDeviceConfig "dev" ⟨true, [], [(⟨7, "dup", false⟩, "x")], [], [], []⟩ [] false
      ⟨[], [], 1, [], 1, [], 1, []⟩).2.2 :=
  ⟨rfl, rfl,
    fun h => Nat.one_ne_zero (Nat.succ.inj
      (congrArg (fun st => st.scripts.length) h))⟩

/-! ## Claim C7: template rendering contract -/

/-- C7: template rendering surfaces parse errors and execution errors
(missing keys included) as errors, never as silent substitutions: a
successful render means every referenced key chain resolved; and
`RenderKVSValue` passes non-string and non-templated string values
through unchanged with `wasTemplated = false`, while a templated string
is rendered (errors propagated) with `wasTemplated = true`. -/
theorem template_rendering_contract :
    (∀ (tmplStr : String) (context : List (String × JValue)) (e : String),
      parseTemplate tmplStr = .error e →
        RenderTemplate tmplStr context = .error ("failed to parse template: " ++ e)) ∧
    (∀ (tmplStr : String) (context : List (String × JValue))
      (toks : List TmplToken) (e : String),
      parseTemplate tmplStr = .ok toks → execTokens context toks = .error e →
        RenderTemplate tmplStr context =
          .error ("failed to execute template '" ++ tmplStr ++ "': " ++ e)) ∧
    (∀ (tmplStr : String) (context : List (String × JValue))
      (toks : List TmplToken) (out : String),
      parseTemplate tmplStr = .ok toks → RenderTemplate tmplStr context = .ok out →
        ∀ chain, TmplToken.action chain ∈ toks →
          ∃ v, resolveChain context chain = .ok v) ∧
    (∀ (value : JValue) (context : List (String × JValue)),
      (∀ s, value ≠ .str s) → RenderKVSValue value context = (.ok value, false)) ∧
    (∀ (s : String) (context : List (String × JValue)), IsTemplated s = false →
      RenderKVSValue (.str s) context = (.ok (.str s), false)) ∧
    (∀ (s : String) (context : List (String × JValue)), IsTemplated s = true →
      (RenderKVSValue (.str s) context).2 = true ∧
      RenderKVSValue (.str s) context =
        (match RenderTemplate s context with
          | .error e => (.error e, true)
          | .ok rendered => (.ok (.str rendered), true))) := by
  refine ⟨?_, ?_, ?_, ?_, ?_, ?_⟩
  · intro tmplStr context e h
    simp [RenderTemplate, h]
  · intro tmplStr context toks e hp he
    simp [RenderTemplate, hp, he]
  · intro tmplStr context toks out hp hr chain hmem
    cases hexec : execTokens context toks with
    | error e =>
        simp only [RenderTemplate, hp, hexec] at hr
        cases hr
    | ok s => exact execTokens_ok_resolve context toks s hexec chain hmem
  · intro value context hne
    cases value with
    | str s => exact absurd rfl (hne s)
    | num n => rfl
    | boolean b => rfl
    | null => rfl
    | obj fields => rfl
  · intro s context h
    simp [RenderKVSValue, h]
  · intro s context h
    constructor
    · simp only [RenderKVSValue, if_pos h]
      cases hrt : RenderTemplate s context with
      | error e => simp [hrt]
      | ok r => simp [hrt]
    · simp only [RenderKVSValue, if_pos h]

/-- Witness for C7: a malformed template, a missing key, a successful
render, a numeric value, a plain string, and a templated string. -/
theorem template_rendering_contract_witness :
    parseTemplate "\x7b\x7bbad" = .error "expected dot at start of action" ∧
    RenderTemplate "\x7b\x7bbad" [] =
      .error "failed to parse template: expected dot at start of action" ∧
    RenderTemplate "\x7b\x7b .missing \x7d\x7d" [] =
      .error ("failed to execute template '" ++ "\x7b\x7b .missing \x7d\x7d" ++
        "': map has no entry for key missing") ∧
    (∃ v, resolveChain [("k", JValue.str "v")] ["k"] = .ok v) ∧
    RenderKVSValue (JValue.num 42) [] = (.ok (JValue.num 42), false) ∧
    RenderKVSValue (JValue.str "plain") [] = (.ok (JValue.str "plain"), false) ∧
    (RenderKVSValue (JValue.str "\x7b\x7b .k \x7d\x7d") [("k", JValue.str "v")]).2 =
      true :=
  ⟨rfl,
    template_rendering_contract.1 "\x7b\x7bbad" [] "expected dot at start of action" rfl,
    template_rendering_contract.2.1 "\x7b\x7b .missing \x7d\x7d" []
      [TmplToken.action ["missing"]] "map has no entry for key missing" rfl rfl,
    template_rendering_contract.2.2.1 "\x7b\x7b .k \x7d\x7d" [("k", JValue.str "v")]
      [TmplToken.action ["k"]] "v" rfl rfl ["k"] (List.mem_singleton.mpr rfl),
    template_rendering_contract.2.2.2.1 (JValue.num 42) []
      (fun _ h => JValue.noConfusion h),
    template_rendering_contract.2.2.2.2.1 "plain" [] rfl,
    (template_rendering_contract.2.2.2.2.2 "\x7b\x7b .k \x7d\x7d"
      [("k", JValue.str "v")] rfl).1⟩

/-! ## Claim C1: pull KVS merge -/

/-- C1: on a pull whose identity and config fetches succeed and whose KVS
read succeeds with at least one key, the resulting local KVS map is the
template-preserving merge: a remote key keeps the local value when the
current local value is a templated string, takes the remote value
otherwise (adding absent keys), and local-only keys are untouched. -/
theorem pull_kvs_template_preserving_merge (env : PullEnv) (device : Device)
    (fs0 : DeviceLocal) (now : Nat) (info : PullDeviceInfo)
    (configMap : List (String × JValue)) (kvsData : KVSMap)
    (hinfo : env.deviceInfo = .ok info)
    (hconfig : env.shellyConfig = .ok configMap)
    (hkvs : env.kvs = .ok kvsData)
    (hne : 0 < kvsData.length) (hnd : NodupKeysA kvsData) (k : String) :
    lookupA (pullDeviceConfig env device fs0 now).fs.kvs k =
      match lookupA kvsData k with
      | some v => if kvsPreserve fs0.kvs k then lookupA fs0.kvs k else some v
      | none => lookupA fs0.kvs k := by
  rcases env with ⟨di, sc, scr, sch, wh, kv, comp⟩
  simp only at hinfo hconfig hkvs
  subst hinfo
  subst hconfig
  subst hkvs
  simp only [pullDeviceConfig, if_pos hne]
  rw [lookupA_mergeKVS fs0.kvs kvsData hnd k]

/-- The spec's concrete templated KVS value. -/
def c1Tmpl : String := "\x7b\x7b .api.endpoint \x7d\x7d"

/-- The prior local KVS map of the spec's merge scenario. -/
def c1LocalKvs : KVSMap :=
  [("api_endpoint", JValue.str c1Tmpl), ("device_name", JValue.str "My Device"),
    ("update_interval", JValue.str "300")]

/-- The remote KVS map of the spec's merge scenario. -/
def c1RemoteKvs : KVSMap :=
  [("api_endpoint", JValue.str "http://current"),
    ("device_name", JValue.str "My Device"),
    ("update_interval", JValue.str "600"), ("new_key", JValue.str "some value")]

/-- A pull environment whose KVS read returns the scenario's remote map. -/
def c1Env : PullEnv :=
  ⟨.ok ⟨"idA", "Device", "M", "fw"⟩, .ok [], .ok [], .ok [], .ok [],
    .ok c1RemoteKvs, .ok []⟩

/-- The device folder holding the scenario's prior local map. -/
def c1Fs : DeviceLocal := ⟨true, none, [], [], [], [], c1LocalKvs, [], []⟩

/-- The manifest record of the scenario's device. -/
def c1Dev : Device := ⟨"idA", "Device", "device-idA", "1.2.3.4", "aa:bb", "M", 0⟩

/-- Witness for C1 on the spec's concrete scenario: the templated key is
untouched, the unchanged literal is unaffected, the changed literal is
updated, and the remote-only key is added. -/
theorem pull_kvs_template_preserving_merge_witness :
    0 < c1RemoteKvs.length ∧ NodupKeysA c1RemoteKvs ∧
    lookupA (pullDeviceConfig c1Env c1Dev c1Fs 0).fs.kvs "api_endpoint" =
      some (JValue.str c1Tmpl) ∧
    lookupA (pullDeviceConfig c1Env c1Dev c1Fs 0).fs.kvs "device_name" =
      some (JValue.str "My Device") ∧
    lookupA (pullDeviceConfig c1Env c1Dev c1Fs 0).fs.kvs "update_interval" =
      some (JValue.str "600") ∧
    lookupA (pullDeviceConfig c1Env c1Dev c1Fs 0).fs.kvs "new_key" =
      some (JValue.str "some value") := by
  refine ⟨by decide, by decide, ?_, ?_, ?_, ?_⟩ <;>
  · rw [pull_kvs_template_preserving_merge c1Env c1Dev c1Fs 0 ⟨"idA", "Device", "M", "fw"⟩
      [] c1RemoteKvs rfl rfl rfl (by decide) (by decide)]
    rfl

/-! ## Claim C9: per-device result isolation -/

/-- C9: on a clean pull, the result list has exactly one entry per
targeted device in manifest order, each entry carries its own device id,
and an entry's success flag depends only on that device's own fetches
(identity and config) — one device's failure is recorded in its own slot
while the overall operation still returns the result list. -/
theorem pull_per_device_result_isolation (hasChanges : Except String Bool)
    (manifest : List Device) (envOf : String → PullEnv)
    (localOf : String → DeviceLocal) (now : Nat)
    (hclean : hasChanges = .ok false) :
    (PullFromDevices hasChanges manifest envOf localOf now).1 =
      .ok (manifest.map (fun d =>
        (pullDeviceConfig (envOf d.deviceID) d (localOf d.deviceID) now).result)) ∧
    (∀ d : Device,
      (pullDeviceConfig (envOf d.deviceID) d (localOf d.deviceID) now).result.deviceID =
        d.deviceID) ∧
    (∀ d : Device,
      (pullDeviceConfig (envOf d.deviceID) d (localOf d.deviceID) now).result.success =
        (isOkE (envOf d.deviceID).deviceInfo &&
          isOkE (envOf d.deviceID).shellyConfig)) := by
  subst hclean
  refine ⟨?_, fun d => pullDeviceConfig_result_deviceID _ _ _ _,
    fun d => pullDeviceConfig_result_success _ _ _ _⟩
  simp [PullFromDevices]

/-- A pull environment with all fetches succeeding. -/
def c9EnvGood : PullEnv :=
  ⟨.ok ⟨"x", "", "M", "fw"⟩, .ok [], .ok [], .ok [], .ok [], .ok [], .ok []⟩

/-- A pull environment whose identity fetch fails. -/
def c9EnvBad : PullEnv :=
  ⟨.error "identity fetch failed", .ok [], .ok [], .ok [], .ok [], .ok [], .ok []⟩

/-- Device B's identity fetch fails; A and C are healthy. -/
def c9EnvOf : String → PullEnv :=
  fun id => if id = "B" then c9EnvBad else c9EnvGood

/-- The three-device manifest A, B, C. -/
def c9Manifest : List Device :=
  [⟨"A", "A", "fa", "", "", "M", 0⟩, ⟨"B", "B", "fb", "", "", "M", 0⟩,
    ⟨"C", "C", "fc", "", "", "M", 0⟩]

/-- Empty device folders for the three devices. -/
def c9LocalOf : String → DeviceLocal :=
  fun _ => ⟨true, none, [], [], [], [], [], [], []⟩

/-- Witness for C9 on the A, B, C scenario: B's failure lands in B's own
slot and A and C independently report success. -/
theorem pull_per_device_result_isolation_witness :
    (PullFromDevices (.ok false) c9Manifest c9EnvOf c9LocalOf 0).1 =
      .ok (c9Manifest.map (fun d =>
        (pullDeviceConfig (c9EnvOf d.deviceID) d (c9LocalOf d.deviceID) 0).result)) ∧
    (PullFromDevices (.ok false) c9Manifest c9EnvOf c9LocalOf 0).1 =
      .ok [⟨"A", true, none, "synced device"⟩,
        ⟨"B", false, some "failed to get device info: identity fetch failed", ""⟩,
        ⟨"C", true, none, "synced device"⟩] :=
  ⟨(pull_per_device_result_isolation (.ok false) c9Manifest c9EnvOf c9LocalOf 0 rfl).1,
    rfl⟩
end ShellyGitOps
